import Mathlib

/-!
Verification of the id8 resilient extraction-and-validation pipeline.

This file shallowly embeds the pipeline's core functions
(`src/backend/app/llm.py`, `src/backend/app/llm_pipeline.py`,
`src/backend/app/utils/json_repair_util.py`, `src/backend/app/llm_center/*`)
as executable Lean definitions over `List Char` strings and an explicit
Python-value type, and proves or refutes the frozen claims about them.

Strings are modelled as `List Char`.  Python's `str` builtins used by the
source (`strip`, `split`, `find`, `in`, `lower`, slicing) are defined below.
-/

/-- Convert a Lean string literal to the `List Char` representation used
throughout this development. -/
def String.lc (s : String) : List Char := s.toList

/-- Single-quote character (written via its code point). -/
def sqCh : Char := Char.ofNat 39

/-- Backslash character (written via its code point). -/
def bslCh : Char := Char.ofNat 92

/-- Python `str.strip` whitespace set (space, tab, newline, carriage return,
vertical tab, form feed). -/
def isPyWs (c : Char) : Bool :=
  c = ' ' || c = Char.ofNat 9 || c = Char.ofNat 10 || c = Char.ofNat 13 ||
  c = Char.ofNat 11 || c = Char.ofNat 12

/-- Python `str.strip()`: drop leading and trailing whitespace. -/
def pyStrip (cs : List Char) : List Char :=
  ((cs.dropWhile isPyWs).reverse.dropWhile isPyWs).reverse

/-- `leadsWith pat cs` is true when `pat` occurs at the start of `cs`
(Python `cs.startswith(pat)`). -/
def leadsWith : List Char → List Char → Bool
  | [], _ => true
  | _ :: _, [] => false
  | p :: ps, c :: cs => p = c && leadsWith ps cs

/-- Index of the first occurrence of `pat` in `cs` (Python `cs.find(pat)`,
with `none` for `-1`). -/
def findTok (pat : List Char) : List Char → Option Nat
  | [] => if pat.isEmpty then some 0 else none
  | c :: cs =>
    if leadsWith pat (c :: cs) then some 0
    else (findTok pat cs).map (· + 1)

/-- Python `pat in cs` substring membership. -/
def hasTok (pat cs : List Char) : Bool := (findTok pat cs).isSome

/-- The part of `cs` before the first occurrence of `pat`
(Python `cs.split(pat)[0]` when `pat` occurs; all of `cs` otherwise). -/
def takeUntilTok (pat : List Char) : List Char → List Char
  | [] => []
  | c :: cs =>
    if leadsWith pat (c :: cs) then []
    else c :: takeUntilTok pat cs

/-- Index of the first occurrence of a single character (Python `str.find`). -/
def findCh (ch : Char) : List Char → Option Nat
  | [] => none
  | c :: cs => if c = ch then some 0 else (findCh ch cs).map (· + 1)

/-- Python `str.lower` restricted to ASCII (the source only compares ASCII
keyword lists). -/
def pyLower (cs : List Char) : List Char :=
  cs.map fun c => if 'A' ≤ c && c ≤ 'Z' then Char.ofNat (c.toNat + 32) else c

/-- `occursIn a b`: `a` is a contiguous substring of `b`. -/
def occursIn (a b : List Char) : Prop := ∃ p q, b = p ++ a ++ q

/-- A Python/JSON value: the values that flow through the pipeline
(`json.loads` output, idea dictionaries, and their fields). -/
inductive Val where
  | vnone
  | vbool (b : Bool)
  | vint (n : Int)
  | vfloat (q : Rat)
  | vstr (s : List Char)
  | vlist (xs : List Val)
  | vdict (ms : List (List Char × Val))

/-- A Python dictionary with string keys: an insertion-ordered association
list, as CPython dicts are. -/
abbrev PyDict := List (List Char × Val)

/-! ### JSON lexing helpers -/

/-- JSON/Python whitespace skipped between tokens. -/
def isJWs (c : Char) : Bool :=
  c = ' ' || c = Char.ofNat 9 || c = Char.ofNat 10 || c = Char.ofNat 13

def jSkipWs (cs : List Char) : List Char := cs.dropWhile isJWs

def isJDigit (c : Char) : Bool := '0' ≤ c && c ≤ '9'

/-- Leading run of decimal digits and the rest. -/
def grabDigits : List Char → List Char × List Char
  | [] => ([], [])
  | c :: cs =>
    if isJDigit c then
      let (ds, r) := grabDigits cs
      (c :: ds, r)
    else ([], c :: cs)

/-- Numeric value of a digit string. -/
def digitsVal (ds : List Char) : Nat :=
  ds.foldl (fun a c => a * 10 + (c.toNat - 48)) 0

/-- Characters allowed in an unquoted (bare) object key. -/
def isIdentCh (c : Char) : Bool :=
  ('a' ≤ c && c ≤ 'z') || ('A' ≤ c && c ≤ 'Z') || ('0' ≤ c && c ≤ '9') || c = '_'

/-- Leading run of identifier characters and the rest. -/
def grabIdent : List Char → List Char × List Char
  | [] => ([], [])
  | c :: cs =>
    if isIdentCh c then
      let (ds, r) := grabIdent cs
      (c :: ds, r)
    else ([], c :: cs)

/-- String body up to (and consuming) the closing quote `q`.  The modelled
fragment has no escape sequences. -/
def grabStr (q : Char) : List Char → Option (List Char × List Char)
  | [] => none
  | c :: cs =>
    if c = q then some ([], cs)
    else (grabStr q cs).map fun p => (c :: p.1, p.2)

/-- An object key.  In strict mode (`json.loads`) only a double-quoted key is
accepted; the tolerant mode (modelled from the spec: `dirtyjson`, the
permissive parser of the Syntax Repair Engine, accepts unquoted keys and
single quotes) also accepts a single-quoted or bare identifier key. -/
def parseKey (strict : Bool) (cs : List Char) : Option (List Char × List Char) :=
  match cs with
  | [] => none
  | c :: r =>
    if c = '"' then grabStr '"' r
    else if c = sqCh then (if strict then none else grabStr sqCh r)
    else if strict then none
    else if isIdentCh c then
      let (k, r2) := grabIdent (c :: r)
      some (k, r2)
    else none

mutual
/-- Core value grammar at one strictness level, on input whose leading
whitespace has been skipped.  Strict mode models `json.loads`; tolerant mode
is modelled from the spec: `dirtyjson` additionally accepts single-quoted
strings, unquoted keys, and trailing commas.  The modelled fragment covers
null, booleans, integers, escape-free strings, and objects. -/
def parseCore (strict : Bool) : Nat → List Char → Option (Val × List Char)
  | 0, _ => none
  | fuel + 1, cs =>
    if leadsWith ("null".lc) cs then some (.vnone, cs.drop 4)
    else if leadsWith ("true".lc) cs then some (.vbool true, cs.drop 4)
    else if leadsWith ("false".lc) cs then some (.vbool false, cs.drop 5)
    else
      match cs with
      | [] => none
      | c :: r =>
        if c = '{' then
          match jSkipWs r with
          | [] => none
          | c2 :: r2 =>
            if c2 = '}' then some (.vdict [], r2)
            else (parseMems strict fuel (c2 :: r2)).map fun p => (.vdict p.1, p.2)
        else if c = '-' then
          match grabDigits r with
          | ([], _) => none
          | (ds, r2) => some (.vint (-(digitsVal ds : Int)), r2)
        else if c = '"' then (grabStr '"' r).map fun p => (.vstr p.1, p.2)
        else if c = sqCh then
          (if strict then none else (grabStr sqCh r).map fun p => (.vstr p.1, p.2))
        else if isJDigit c then
          match grabDigits (c :: r) with
          | (ds, r2) => some (.vint (digitsVal ds), r2)
        else none

/-- One-or-more object members; the empty object is handled in `parseCore`.
Input whitespace has been skipped.  A trailing comma before `}` is accepted
only in tolerant mode. -/
def parseMems (strict : Bool) : Nat → List Char → Option (List (List Char × Val) × List Char)
  | 0, _ => none
  | fuel + 1, cs =>
    match parseKey strict cs with
    | none => none
    | some (k, r1) =>
      match jSkipWs r1 with
      | [] => none
      | c1 :: r2 =>
        if c1 = ':' then
          match parseCore strict fuel (jSkipWs r2) with
          | none => none
          | some (v, r3) =>
            match jSkipWs r3 with
            | [] => none
            | c3 :: r4 =>
              if c3 = ',' then
                match jSkipWs r4 with
                | [] => none
                | c4 :: r5 =>
                  if c4 = '}' then (if strict then none else some ([(k, v)], r5))
                  else (parseMems strict fuel (c4 :: r5)).map fun p => ((k, v) :: p.1, p.2)
              else if c3 = '}' then some ([(k, v)], r4)
              else none
        else none
end

/-- Parse a whole document: skip leading whitespace, parse one value, and
require only whitespace after it. -/
def parseDoc (strict : Bool) (cs : List Char) : Option Val :=
  match parseCore strict (cs.length + 1) (jSkipWs cs) with
  | some (v, r) => if (jSkipWs r).isEmpty then some v else none
  | none => none

/-- Model of Python `json.loads` on the covered fragment (`none` = raised
`JSONDecodeError`). -/
def jsonLoads (cs : List Char) : Option Val := parseDoc true cs

/-- Modelled from the spec: `dirtyjson.loads`, the permissive, error-tolerant
structural parser of the Syntax Repair Engine (§4.3) — accepts unquoted keys,
single quotes, and trailing commas; `none` = raised parse error.  The
`dirtyjson` library itself is not part of this repository's sources. -/
def dirtyLoads (cs : List Char) : Option Val := parseDoc false cs

/-! ### Rendering -/

/-- Digit character for `n < 10`. -/
def digitCh (n : Nat) : Char :=
  match n with
  | 0 => '0' | 1 => '1' | 2 => '2' | 3 => '3' | 4 => '4'
  | 5 => '5' | 6 => '6' | 7 => '7' | 8 => '8' | _ => '9'

/-- Decimal digit characters of a natural number, most significant first. -/
def natDigits (n : Nat) : List Char :=
  if _h : n < 10 then [digitCh n]
  else natDigits (n / 10) ++ [digitCh (n % 10)]
termination_by n
decreasing_by
  exact Nat.div_lt_self (by omega) (by omega)

/-- Characters of an integer: optional minus sign, then decimal digits. -/
def intChars (i : Int) : List Char :=
  (if i < 0 then ['-'] else []) ++ natDigits i.natAbs

/-- Best-effort decimal rendering of a rational (used only for the `vfloat`
constructor, which no parsed value and no theorem in this file produces). -/
def ratChars (q : Rat) : List Char :=
  intChars q.num ++ (if q.den = 1 then [] else '/' :: natDigits q.den)

/-- How an object key is written in a mutated serialization. -/
inductive KeyStyle where
  | dq   -- double-quoted (strict JSON)
  | sq   -- single-quoted
  | bare -- unquoted
deriving DecidableEq

/-- One point of the tolerated mutation grammar of §4.3 / §8: the ways a
serialization of a value may deviate from strict JSON while still being
accepted by the tolerant parser — key quoting style, string quote character,
a trailing comma in non-empty objects, and spacing after separators. -/
structure MutOpts where
  keyStyle : KeyStyle
  singleQuote : Bool
  trailing : Bool
  spaced : Bool
deriving DecidableEq

/-- The identity point of the mutation grammar: exactly Python
`json.dumps` output (double quotes everywhere, no trailing comma,
a space after `,` and `:`). -/
def strictOpts : MutOpts := ⟨.dq, false, false, true⟩

def quoteCh (single : Bool) : Char := if single then sqCh else '"'

def renderKey (o : MutOpts) (k : List Char) : List Char :=
  match o.keyStyle with
  | .dq => '"' :: k ++ ['"']
  | .sq => sqCh :: k ++ [sqCh]
  | .bare => k

def colonTok (o : MutOpts) : List Char := if o.spaced then [':', ' '] else [':']

def commaTok (o : MutOpts) : List Char := if o.spaced then [',', ' '] else [',']

def trailTok (o : MutOpts) : List Char := if o.trailing then [','] else []

mutual
/-- Serialize a value at a point `o` of the mutation grammar.  At
`strictOpts` this is the model of Python `json.dumps` (on the fragment;
`vfloat`/`vlist` renderings are placeholders never produced by parsing). -/
def renderV (o : MutOpts) : Val → List Char
  | .vnone => "null".lc
  | .vbool true => "true".lc
  | .vbool false => "false".lc
  | .vint n => intChars n
  | .vfloat q => ratChars q
  | .vstr s => quoteCh o.singleQuote :: s ++ [quoteCh o.singleQuote]
  | .vlist xs => '[' :: renderList o xs ++ [']']
  | .vdict [] => ['{', '}']
  | .vdict (m :: ms) =>
    '{' :: (renderMem o m ++ renderMemsTail o ms ++ trailTok o ++ ['}'])

def renderList (o : MutOpts) : List Val → List Char
  | [] => []
  | [x] => renderV o x
  | x :: y :: xs => renderV o x ++ commaTok o ++ renderList o (y :: xs)

def renderMem (o : MutOpts) : List Char × Val → List Char
  | (k, v) => renderKey o k ++ colonTok o ++ renderV o v

def renderMemsTail (o : MutOpts) : List (List Char × Val) → List Char
  | [] => []
  | m :: ms => commaTok o ++ renderMem o m ++ renderMemsTail o ms
end

/-- Model of Python `json.dumps` (default separators). -/
def jsonDumps (v : Val) : List Char := renderV strictOpts v

/-! ### Well-formed values for the round-trip theorem -/

/-- String content that survives quoting under either quote character and
needs no escaping: no quote of either kind and no backslash. -/
def safeStrCh (c : Char) : Bool := !(c = '"' || c = sqCh || c = bslCh)

mutual
/-- Values whose serializations the round-trip theorem covers: null,
booleans, integers, escape-free strings, and nested objects whose keys are
non-empty identifiers (so they may also be rendered unquoted). -/
def wfV : Val → Bool
  | .vnone => true
  | .vbool _ => true
  | .vint _ => true
  | .vfloat _ => false
  | .vstr s => s.all safeStrCh
  | .vlist _ => false
  | .vdict ms => wfMs ms

def wfMs : List (List Char × Val) → Bool
  | [] => true
  | (k, v) :: ms => (!k.isEmpty && k.all isIdentCh) && wfV v && wfMs ms
end

/-! ### Round-trip lemmas: lexeme level -/

theorem jSkipWs_cons {c : Char} {t : List Char} (h : isJWs c = false) :
    jSkipWs (c :: t) = c :: t := by
  simp [jSkipWs, List.dropWhile, h]

theorem grabStr_append {q : Char} : ∀ (s rest : List Char), (∀ c ∈ s, c ≠ q) →
    grabStr q (s ++ q :: rest) = some (s, rest) := by
  intro s
  induction s with
  | nil => intro rest _; simp [grabStr]
  | cons c cs ih =>
    intro rest h
    have hc : c ≠ q := h c (by simp)
    have ih' : grabStr q (cs ++ q :: rest) = some (cs, rest) :=
      ih rest fun d hd => h d (by simp [hd])
    rw [List.cons_append, grabStr, if_neg hc, ih']
    rfl

/-- Delimiter condition after an identifier run. -/
def identDelim : List Char → Bool
  | [] => true
  | c :: _ => !isIdentCh c

theorem grabIdent_append : ∀ (k rest : List Char), (∀ c ∈ k, isIdentCh c = true) →
    identDelim rest = true → grabIdent (k ++ rest) = (k, rest) := by
  intro k
  induction k with
  | nil =>
    intro rest _ hd
    cases rest with
    | nil => simp [grabIdent]
    | cons c t =>
      simp only [identDelim, Bool.not_eq_true'] at hd
      simp [grabIdent, hd]
  | cons c cs ih =>
    intro rest h hd
    have hc : isIdentCh c = true := h c (by simp)
    simp [grabIdent, hc, ih rest (fun d hdm => h d (by simp [hdm])) hd]

/-- Delimiter condition after a digit run. -/
def numDelim : List Char → Bool
  | [] => true
  | c :: _ => !isJDigit c

theorem grabDigits_append : ∀ (ds rest : List Char), (∀ c ∈ ds, isJDigit c = true) →
    numDelim rest = true → grabDigits (ds ++ rest) = (ds, rest) := by
  intro ds
  induction ds with
  | nil =>
    intro rest _ hd
    cases rest with
    | nil => simp [grabDigits]
    | cons c t =>
      simp only [numDelim, Bool.not_eq_true'] at hd
      simp [grabDigits, hd]
  | cons c cs ih =>
    intro rest h hd
    have hc : isJDigit c = true := h c (by simp)
    simp [grabDigits, hc, ih rest (fun d hdm => h d (by simp [hdm])) hd]

theorem digitCh_digit : ∀ n : Nat, isJDigit (digitCh n) = true := by
  intro n
  unfold digitCh
  split <;> decide

theorem digitCh_val : ∀ n : Nat, n < 10 → (digitCh n).toNat - 48 = n := by
  intro n h
  interval_cases n <;> decide

theorem natDigits_cons : ∀ n : Nat, ∃ c t, natDigits n = c :: t ∧ isJDigit c = true := by
  intro n
  induction n using Nat.strong_induction_on with
  | _ n ih =>
    rw [natDigits]
    split
    · exact ⟨digitCh n, [], rfl, digitCh_digit n⟩
    · obtain ⟨c, t, h, hc⟩ := ih (n / 10) (Nat.div_lt_self (by omega) (by omega))
      exact ⟨c, t ++ [digitCh (n % 10)], by rw [h, List.cons_append], hc⟩

theorem natDigits_all_digit : ∀ n : Nat, ∀ c ∈ natDigits n, isJDigit c = true := by
  intro n
  induction n using Nat.strong_induction_on with
  | _ n ih =>
    rw [natDigits]
    split
    · intro c hc
      simp only [List.mem_singleton] at hc
      subst hc; exact digitCh_digit n
    · intro c hc
      rcases List.mem_append.mp hc with h | h
      · exact ih (n / 10) (Nat.div_lt_self (by omega) (by omega)) c h
      · simp only [List.mem_singleton] at h
        subst h; exact digitCh_digit (n % 10)

theorem digitsVal_append_one (xs : List Char) (c : Char) :
    digitsVal (xs ++ [c]) = digitsVal xs * 10 + (c.toNat - 48) := by
  simp [digitsVal, List.foldl_append]

theorem digitsVal_natDigits : ∀ n : Nat, digitsVal (natDigits n) = n := by
  intro n
  induction n using Nat.strong_induction_on with
  | _ n ih =>
    rw [natDigits]
    split
    · rename_i h
      simp [digitsVal, digitCh_val n h]
    · rename_i h
      rw [digitsVal_append_one, ih (n / 10) (Nat.div_lt_self (by omega) (by omega)),
        digitCh_val (n % 10) (Nat.mod_lt n (by omega))]
      omega

/-! ### Round-trip lemmas: dispatch level -/

theorem leadsWith_refl_append : ∀ (p x : List Char), leadsWith p (p ++ x) = true := by
  intro p
  induction p with
  | nil => intro x; rfl
  | cons c cs ih => intro x; simp [leadsWith, ih]

theorem leadsWith_head_ne {p c : Char} {ps r : List Char} (h : c ≠ p) :
    leadsWith (p :: ps) (c :: r) = false := by
  show (decide (p = c) && leadsWith ps r) = false
  rw [decide_eq_false fun hh => h hh.symm, Bool.false_and]

theorem identCh_facts {c : Char} (h : isIdentCh c = true) :
    c ≠ '"' ∧ c ≠ sqCh ∧ c ≠ '}' ∧ isJWs c = false := by
  refine ⟨?_, ?_, ?_, ?_⟩
  · intro he; subst he; exact absurd h (by decide)
  · intro he; subst he; exact absurd h (by decide)
  · intro he; subst he; exact absurd h (by decide)
  · by_contra hw
    rw [Bool.not_eq_false] at hw
    simp only [isJWs, Bool.or_eq_true, decide_eq_true_eq] at hw
    rcases hw with ((rfl | rfl) | rfl) | rfl <;> exact absurd h (by decide)

theorem digit_facts {c : Char} (h : isJDigit c = true) :
    c ≠ 'n' ∧ c ≠ 't' ∧ c ≠ 'f' ∧ c ≠ '{' ∧ c ≠ '-' ∧ c ≠ '"' ∧ c ≠ sqCh ∧
    isJWs c = false ∧ c ≠ '}' := by
  refine ⟨?_, ?_, ?_, ?_, ?_, ?_, ?_, ?_, ?_⟩
  case _ => intro he; subst he; exact absurd h (by decide)
  case _ => intro he; subst he; exact absurd h (by decide)
  case _ => intro he; subst he; exact absurd h (by decide)
  case _ => intro he; subst he; exact absurd h (by decide)
  case _ => intro he; subst he; exact absurd h (by decide)
  case _ => intro he; subst he; exact absurd h (by decide)
  case _ => intro he; subst he; exact absurd h (by decide)
  case _ =>
    by_contra hw
    rw [Bool.not_eq_false] at hw
    simp only [isJWs, Bool.or_eq_true, decide_eq_true_eq] at hw
    rcases hw with ((rfl | rfl) | rfl) | rfl <;> exact absurd h (by decide)
  case _ => intro he; subst he; exact absurd h (by decide)

theorem safe_facts {c : Char} (h : safeStrCh c = true) :
    c ≠ '"' ∧ c ≠ sqCh := by
  constructor
  · intro he; subst he; exact absurd h (by decide)
  · intro he; subst he; exact absurd h (by decide)

/-- `strict = true → o = strictOpts`: strict-mode round trips only cover the
unmutated serialization. -/
def okOpts (strict : Bool) (o : MutOpts) : Prop := strict = true → o = strictOpts

theorem strict_false_of_ne {strict : Bool} {o : MutOpts} (hok : okOpts strict o)
    (h : o ≠ strictOpts) : strict = false := by
  cases strict
  · rfl
  · exact absurd (hok rfl) h

/-- Step form of `parseCore` at a digit head. -/
theorem parseCore_digit (strict : Bool) (fuel : Nat) (c : Char) (r : List Char)
    (hd : isJDigit c = true) :
    parseCore strict (fuel + 1) (c :: r) =
      (match grabDigits (c :: r) with
       | (ds, r2) => some (.vint (digitsVal ds), r2)) := by
  obtain ⟨hn, ht, hf, hbr, hmn, hdq, hsq, _, _⟩ := digit_facts hd
  simp only [parseCore]
  rw [show ("null".lc) = 'n' :: ("ull".lc) from rfl, leadsWith_head_ne hn,
    show ("true".lc) = 't' :: ("rue".lc) from rfl, leadsWith_head_ne ht,
    show ("false".lc) = 'f' :: ("alse".lc) from rfl, leadsWith_head_ne hf]
  simp only [Bool.false_eq_true, if_false]
  rw [if_neg hbr, if_neg hmn, if_neg hdq, if_neg hsq, if_pos hd]

theorem jSkipWs_space (x : List Char) : jSkipWs (' ' :: x) = jSkipWs x := rfl

mutual
/-- Every rendering of a well-formed value starts with a character of its own
(no leading whitespace), so `jSkipWs` is the identity there. -/
theorem renderV_head : ∀ (o : MutOpts) (v : Val), wfV v = true →
    ∃ c t, renderV o v = c :: t ∧ isJWs c = false
  | o, .vnone, _ => ⟨'n', _, rfl, by decide⟩
  | o, .vbool true, _ => ⟨'t', _, rfl, by decide⟩
  | o, .vbool false, _ => ⟨'f', _, rfl, by decide⟩
  | o, .vint n, _ => by
    obtain ⟨c, t, hct, hc⟩ := natDigits_cons n.natAbs
    by_cases hneg : n < 0
    · exact ⟨'-', natDigits n.natAbs, by simp [renderV, intChars, hneg], by decide⟩
    · refine ⟨c, t, ?_, (digit_facts hc).2.2.2.2.2.2.2.1⟩
      simp [renderV, intChars, hneg, hct]
  | o, .vfloat _, hwf => by simp [wfV] at hwf
  | o, .vstr s, _ => by
    refine ⟨quoteCh o.singleQuote, s ++ [quoteCh o.singleQuote], rfl, ?_⟩
    by_cases hq : o.singleQuote <;> simp [quoteCh, hq] <;> decide
  | o, .vlist _, hwf => by simp [wfV] at hwf
  | o, .vdict [], _ => ⟨'{', _, rfl, by decide⟩
  | o, .vdict (m :: ms), _ => ⟨'{', _, rfl, by decide⟩
end

theorem renderV_skip (o : MutOpts) (v : Val) (hwf : wfV v = true) (y : List Char) :
    jSkipWs (renderV o v ++ y) = renderV o v ++ y := by
  obtain ⟨c, t, hct, hc⟩ := renderV_head o v hwf
  rw [hct, List.cons_append, jSkipWs_cons hc]

/-- A rendered object key starts with a non-whitespace character that is
not `}` (a quote or an identifier character). -/
theorem renderKey_head (o : MutOpts) (k : List Char)
    (hne : k.isEmpty = false) (hkc : ∀ c ∈ k, isIdentCh c = true) :
    ∃ c t, renderKey o k = c :: t ∧ isJWs c = false ∧ c ≠ '}' := by
  cases k with
  | nil => simp at hne
  | cons c0 k0 =>
    have hid := hkc c0 (by simp)
    obtain ⟨_, _, hbr, hws⟩ := identCh_facts hid
    cases hks : o.keyStyle with
    | dq =>
      exact ⟨'"', (c0 :: k0) ++ ['"'], by simp [renderKey, hks], by decide, by decide⟩
    | sq =>
      exact ⟨sqCh, (c0 :: k0) ++ [sqCh], by simp [renderKey, hks], by decide, by decide⟩
    | bare =>
      exact ⟨c0, k0, by simp [renderKey, hks], hws, hbr⟩

theorem renderMem_eq (o : MutOpts) (k : List Char) (v : Val) :
    renderMem o (k, v) = renderKey o k ++ (colonTok o ++ renderV o v) := by
  simp [renderMem, List.append_assoc]

/-- A rendered object member starts with a non-whitespace character that is
not `}`. -/
theorem renderMem_head (o : MutOpts) (k : List Char) (v : Val)
    (hne : k.isEmpty = false) (hkc : ∀ c ∈ k, isIdentCh c = true) :
    ∃ c t, renderMem o (k, v) = c :: t ∧ isJWs c = false ∧ c ≠ '}' := by
  obtain ⟨c, t, hct, hws, hbr⟩ := renderKey_head o k hne hkc
  exact ⟨c, t ++ (colonTok o ++ renderV o v),
    by rw [renderMem_eq, hct, List.cons_append], hws, hbr⟩

theorem parseKey_render (strict : Bool) (o : MutOpts) (k rest : List Char)
    (hok : okOpts strict o) (hne : k.isEmpty = false)
    (hkc : ∀ c ∈ k, isIdentCh c = true) (hdl : identDelim rest = true) :
    parseKey strict (renderKey o k ++ rest) = some (k, rest) := by
  cases hks : o.keyStyle with
  | dq =>
    have harg : renderKey o k ++ rest = '"' :: (k ++ '"' :: rest) := by
      simp [renderKey, hks]
    rw [harg]
    show grabStr '"' (k ++ '"' :: rest) = some (k, rest)
    exact grabStr_append k rest fun c hc => (identCh_facts (hkc c hc)).1
  | sq =>
    have hstrict : strict = false := strict_false_of_ne hok (by
      intro he; rw [he] at hks; exact absurd hks (by decide))
    subst hstrict
    have harg : renderKey o k ++ rest = sqCh :: (k ++ sqCh :: rest) := by
      simp [renderKey, hks]
    rw [harg]
    show grabStr sqCh (k ++ sqCh :: rest) = some (k, rest)
    exact grabStr_append k rest fun c hc => (identCh_facts (hkc c hc)).2.1
  | bare =>
    have hstrict : strict = false := strict_false_of_ne hok (by
      intro he; rw [he] at hks; exact absurd hks (by decide))
    subst hstrict
    cases k with
    | nil => simp at hne
    | cons c0 k0 =>
      have hid0 := hkc c0 (by simp)
      obtain ⟨hdq, hsq, _, _⟩ := identCh_facts hid0
      have harg : renderKey o (c0 :: k0) ++ rest = c0 :: (k0 ++ rest) := by
        simp [renderKey, hks]
      rw [harg]
      simp only [parseKey]
      rw [if_neg hdq, if_neg hsq, if_neg (by decide : ¬ (false = true)), if_pos hid0]
      have hgi := grabIdent_append (c0 :: k0) rest hkc hdl
      rw [List.cons_append] at hgi
      rw [hgi]

theorem identDelim_colon (o : MutOpts) (x : List Char) :
    identDelim (colonTok o ++ x) = true := by
  cases hs : o.spaced <;> simp [colonTok, hs, identDelim] <;> decide

/-- The text that follows a member value inside a rendered object starts with
a comma or a closing brace, so it delimits a rendered number. -/
theorem numDelim_after (o : MutOpts) (ms : List (List Char × Val)) (x : List Char) :
    numDelim (renderMemsTail o ms ++ (trailTok o ++ '}' :: x)) = true := by
  cases ms with
  | nil =>
    cases ht : o.trailing <;> simp [renderMemsTail, trailTok, ht, numDelim] <;> decide
  | cons m tail =>
    cases hs : o.spaced <;>
      simp [renderMemsTail, commaTok, hs, numDelim, List.append_assoc] <;> decide

theorem colonTok_len (o : MutOpts) : 1 ≤ (colonTok o).length := by
  cases hs : o.spaced <;> simp [colonTok, hs]

theorem commaTok_len (o : MutOpts) : 1 ≤ (commaTok o).length := by
  cases hs : o.spaced <;> simp [commaTok, hs]

/-- Step form of `parseCore` at an opening brace. -/
theorem parseCore_obj (strict : Bool) (fuel : Nat) (r : List Char) :
    parseCore strict (fuel + 1) ('{' :: r) =
      (match jSkipWs r with
       | [] => none
       | c2 :: r2 =>
         if c2 = '}' then some (.vdict [], r2)
         else (parseMems strict fuel (c2 :: r2)).map fun p => (.vdict p.1, p.2)) := by
  simp only [parseCore]
  rfl

/-- Step form of `parseCore` at a double quote. -/
theorem parseCore_dqStr (strict : Bool) (fuel : Nat) (r : List Char) :
    parseCore strict (fuel + 1) ('"' :: r) =
      (grabStr '"' r).map (fun p => (.vstr p.1, p.2)) := by
  simp only [parseCore]
  rfl

/-- Step form of `parseCore` at a single quote. -/
theorem parseCore_sqStr (strict : Bool) (fuel : Nat) (r : List Char) :
    parseCore strict (fuel + 1) (sqCh :: r) =
      (if strict then none else (grabStr sqCh r).map fun p => (.vstr p.1, p.2)) := by
  simp only [parseCore]
  rfl

/-- Step form of `parseCore` at a minus sign. -/
theorem parseCore_neg (strict : Bool) (fuel : Nat) (r : List Char) :
    parseCore strict (fuel + 1) ('-' :: r) =
      (match grabDigits r with
       | ([], _) => none
       | (ds, r2) => some (.vint (-(digitsVal ds : Int)), r2)) := by
  simp only [parseCore]
  rfl


/-- Skipping whitespace after a separator token (`,` or `:`, optionally
followed by a space) reaches the next rendered fragment. -/
theorem sep_skip (c0 : Char) (b : Bool) (X : List Char) (hX : jSkipWs X = X) :
    ∃ r, (if b then [c0, ' '] else [c0]) ++ X = c0 :: r ∧ jSkipWs r = X := by
  cases b
  · exact ⟨X, by simp, hX⟩
  · exact ⟨' ' :: X, by simp, by rw [jSkipWs_space]; exact hX⟩

mutual
/-- Round trip for a value: at either strictness level covering the chosen
mutation point, the parser recovers exactly the rendered value. -/
theorem rt_core : ∀ (fuel : Nat) (v : Val) (strict : Bool) (o : MutOpts) (rest : List Char),
    wfV v = true → okOpts strict o → numDelim rest = true →
    (renderV o v).length < fuel →
    parseCore strict fuel (renderV o v ++ rest) = some (v, rest)
  | 0, _, _, _, _, _, _, _, hf => absurd hf (Nat.not_lt_zero _)
  | fuel + 1, .vnone, strict, o, rest, _, _, _, _ => by
    rw [show renderV o .vnone = ("null".lc) from by simp [renderV]]
    simp only [parseCore]
    rfl
  | fuel + 1, .vbool true, strict, o, rest, _, _, _, _ => by
    rw [show renderV o (.vbool true) = ("true".lc) from by simp [renderV]]
    simp only [parseCore]
    rfl
  | fuel + 1, .vbool false, strict, o, rest, _, _, _, _ => by
    rw [show renderV o (.vbool false) = ("false".lc) from by simp [renderV]]
    simp only [parseCore]
    rfl
  | fuel + 1, .vfloat q, strict, o, rest, hwf, _, _, _ => by simp [wfV] at hwf
  | fuel + 1, .vlist xs, strict, o, rest, hwf, _, _, _ => by simp [wfV] at hwf
  | fuel + 1, .vint n, strict, o, rest, _, _, hnd, _ => by
    by_cases hneg : n < 0
    · have harg : renderV o (.vint n) ++ rest = '-' :: (natDigits n.natAbs ++ rest) := by
        simp [renderV, intChars, hneg]
      rw [harg, parseCore_neg,
        grabDigits_append _ _ (natDigits_all_digit _) hnd]
      obtain ⟨c, t, hct, _⟩ := natDigits_cons n.natAbs
      rw [hct]
      show some (Val.vint (-(digitsVal (c :: t) : Int)), rest) = some (Val.vint n, rest)
      rw [← hct, digitsVal_natDigits]
      have h2 : (-(n.natAbs : Int)) = n := by omega
      rw [h2]
    · obtain ⟨c, t, hct, hc⟩ := natDigits_cons n.natAbs
      have harg : renderV o (.vint n) ++ rest = c :: (t ++ rest) := by
        simp [renderV, intChars, hneg, hct]
      rw [harg, parseCore_digit _ _ _ _ hc]
      have hgd : grabDigits (c :: (t ++ rest)) = (c :: t, rest) := by
        rw [← List.cons_append, ← hct]
        exact grabDigits_append _ _ (natDigits_all_digit _) hnd
      rw [hgd]
      show some (Val.vint ((digitsVal (c :: t) : Int)), rest) = some (Val.vint n, rest)
      rw [← hct, digitsVal_natDigits]
      have h2 : ((n.natAbs : Int)) = n := by omega
      rw [h2]
  | fuel + 1, .vstr s, strict, o, rest, hwf, hok, _, _ => by
    have hsafe : ∀ c ∈ s, safeStrCh c = true := by
      simpa [wfV, List.all_eq_true] using hwf
    by_cases hq : o.singleQuote
    · have hstrict : strict = false := strict_false_of_ne hok (by
        intro he; rw [he] at hq; exact absurd hq (by decide))
      subst hstrict
      have harg : renderV o (.vstr s) ++ rest = sqCh :: (s ++ sqCh :: rest) := by
        simp [renderV, quoteCh, hq]
      rw [harg, parseCore_sqStr, if_neg (by decide : ¬ (false = true)),
        grabStr_append s _ fun c hc => (safe_facts (hsafe c hc)).2]
      rfl
    · have harg : renderV o (.vstr s) ++ rest = '"' :: (s ++ '"' :: rest) := by
        simp [renderV, quoteCh, hq]
      rw [harg, parseCore_dqStr,
        grabStr_append s _ fun c hc => (safe_facts (hsafe c hc)).1]
      rfl
  | fuel + 1, .vdict [], strict, o, rest, _, _, _, _ => by
    rw [show renderV o (.vdict []) ++ rest = '{' :: '}' :: rest from by simp [renderV]]
    simp only [parseCore]
    rfl
  | fuel + 1, .vdict ((k, v) :: ms), strict, o, rest, hwf, hok, _, hf => by
    have hwfm : wfMs ((k, v) :: ms) = true := by simpa [wfV] using hwf
    have hdes := hwfm
    simp only [wfMs, Bool.and_eq_true, Bool.not_eq_true', List.all_eq_true] at hdes
    obtain ⟨⟨⟨hkne, hkc⟩, _⟩, _⟩ := hdes
    have harg : renderV o (.vdict ((k, v) :: ms)) ++ rest =
        '{' :: (renderMem o (k, v) ++ (renderMemsTail o ms ++ (trailTok o ++ '}' :: rest))) := by
      simp [renderV, List.append_assoc]
    rw [harg, parseCore_obj]
    obtain ⟨c0, t0, hmem, hnws, hnbr⟩ := renderMem_head o k v hkne hkc
    have hR : renderMem o (k, v) ++ (renderMemsTail o ms ++ (trailTok o ++ '}' :: rest)) =
        c0 :: (t0 ++ (renderMemsTail o ms ++ (trailTok o ++ '}' :: rest))) := by
      rw [hmem, List.cons_append]
    have hflen : (renderMem o (k, v) ++ renderMemsTail o ms).length < fuel := by
      have hlen : (renderV o (.vdict ((k, v) :: ms))).length =
          1 + ((renderMem o (k, v)).length + ((renderMemsTail o ms).length +
            ((trailTok o).length + 1))) := by
        simp [renderV, List.length_append]
        omega
      have hlen2 : (renderMem o (k, v) ++ renderMemsTail o ms).length =
          (renderMem o (k, v)).length + (renderMemsTail o ms).length := by
        simp [List.length_append]
      omega
    have hrec := rt_mems fuel ms k v strict o rest hwfm hok hflen
    rw [hR, jSkipWs_cons hnws]
    simp only [if_neg hnbr]
    rw [← List.cons_append, ← hmem, hrec]
    rfl

/-- Round trip for a non-empty member list, through the closing brace. -/
theorem rt_mems : ∀ (fuel : Nat) (ms : List (List Char × Val)) (k : List Char) (v : Val)
    (strict : Bool) (o : MutOpts) (rest : List Char),
    wfMs ((k, v) :: ms) = true → okOpts strict o →
    (renderMem o (k, v) ++ renderMemsTail o ms).length < fuel →
    parseMems strict fuel
        (renderMem o (k, v) ++ (renderMemsTail o ms ++ (trailTok o ++ '}' :: rest)))
      = some ((k, v) :: ms, rest)
  | 0, _, _, _, _, _, _, _, _, hf => absurd hf (Nat.not_lt_zero _)
  | fuel + 1, ms, k, v, strict, o, rest, hwf, hok, hf => by
    have hdes := hwf
    simp only [wfMs, Bool.and_eq_true, Bool.not_eq_true', List.all_eq_true] at hdes
    obtain ⟨⟨⟨hkne, hkc⟩, hv⟩, hms⟩ := hdes
    have hvlen : (renderV o v).length < fuel := by
      have h1 := colonTok_len o
      have h2 : (renderMem o (k, v)).length =
          (renderKey o k).length + ((colonTok o).length + (renderV o v).length) := by
        rw [renderMem_eq]; simp [List.length_append]
      have h3 : (renderMem o (k, v) ++ renderMemsTail o ms).length =
          (renderMem o (k, v)).length + (renderMemsTail o ms).length := by
        simp [List.length_append]
      omega
    obtain ⟨r2, hsep1, hsep2⟩ := sep_skip ':' o.spaced
      (renderV o v ++ (renderMemsTail o ms ++ (trailTok o ++ '}' :: rest)))
      (renderV_skip o v hv _)
    have hcolon : colonTok o ++ (renderV o v ++ (renderMemsTail o ms ++
        (trailTok o ++ '}' :: rest))) = ':' :: r2 := hsep1
    have hkey := parseKey_render strict o k
      (colonTok o ++ (renderV o v ++ (renderMemsTail o ms ++ (trailTok o ++ '}' :: rest))))
      hok hkne hkc (identDelim_colon o _)
    have hcore := rt_core fuel v strict o
      (renderMemsTail o ms ++ (trailTok o ++ '}' :: rest))
      hv hok (numDelim_after o ms rest) hvlen
    have harg : renderMem o (k, v) ++ (renderMemsTail o ms ++ (trailTok o ++ '}' :: rest)) =
        renderKey o k ++ (colonTok o ++ (renderV o v ++
          (renderMemsTail o ms ++ (trailTok o ++ '}' :: rest)))) := by
      rw [renderMem_eq]; simp [List.append_assoc]
    rw [hcolon] at hkey
    rw [harg]
    simp only [parseMems, hcolon, hkey,
      jSkipWs_cons (show isJWs ':' = false by decide), hsep2, hcore]
    -- remaining: the text after the parsed value
    cases ms with
    | nil =>
      cases ht : o.trailing
      · rw [show renderMemsTail o ([] : List (List Char × Val)) = [] from by
            simp [renderMemsTail],
          show trailTok o = [] from by simp [trailTok, ht]]
        rfl
      · have hstrict : strict = false := strict_false_of_ne hok (by
          intro he; rw [he] at ht; exact absurd ht (by decide))
        subst hstrict
        rw [show renderMemsTail o ([] : List (List Char × Val)) = [] from by
            simp [renderMemsTail],
          show trailTok o = [','] from by simp [trailTok, ht]]
        rfl
    | cons m2 tail =>
      obtain ⟨k2, v2⟩ := m2
      have hms' : wfMs ((k2, v2) :: tail) = true := hms
      have hdes2 := hms
      simp only [wfMs, Bool.and_eq_true, Bool.not_eq_true', List.all_eq_true] at hdes2
      obtain ⟨⟨⟨hk2ne, hk2c⟩, hv2⟩, htail⟩ := hdes2
      obtain ⟨c4, t4, hm2, hm2ws, hm2ne⟩ := renderMem_head o k2 v2 hk2ne hk2c
      have hXskip : jSkipWs (renderMem o (k2, v2) ++
          (renderMemsTail o tail ++ (trailTok o ++ '}' :: rest))) =
          renderMem o (k2, v2) ++ (renderMemsTail o tail ++ (trailTok o ++ '}' :: rest)) := by
        rw [hm2, List.cons_append, jSkipWs_cons hm2ws]
      obtain ⟨r4, hsep3, hsep4⟩ := sep_skip ',' o.spaced
        (renderMem o (k2, v2) ++ (renderMemsTail o tail ++ (trailTok o ++ '}' :: rest)))
        hXskip
      have hcomma : commaTok o ++ (renderMem o (k2, v2) ++
          (renderMemsTail o tail ++ (trailTok o ++ '}' :: rest))) = ',' :: r4 := hsep3
      have hmemlen : 1 ≤ (renderMem o (k, v)).length := by
        rw [renderMem_eq]
        have := colonTok_len o
        simp [List.length_append]
        omega
      have hreclen : (renderMem o (k2, v2) ++ renderMemsTail o tail).length < fuel := by
        have h1 := commaTok_len o
        have hL1 : (renderMem o (k, v) ++ renderMemsTail o ((k2, v2) :: tail)).length =
            (renderMem o (k, v)).length + ((commaTok o).length +
              ((renderMem o (k2, v2)).length + (renderMemsTail o tail).length)) := by
          simp [renderMemsTail, List.length_append]
        have hL2 : (renderMem o (k2, v2) ++ renderMemsTail o tail).length =
            (renderMem o (k2, v2)).length + (renderMemsTail o tail).length := by
          simp [List.length_append]
        omega
      have hrec := rt_mems fuel tail k2 v2 strict o rest hms' hok hreclen
      have hr4 : jSkipWs r4 = c4 :: (t4 ++ (renderMemsTail o tail ++ (trailTok o ++ '}' :: rest))) := by
        rw [hsep4, hm2, List.cons_append]
      have hback : (c4 :: (t4 ++ (renderMemsTail o tail ++ (trailTok o ++ '}' :: rest)))) =
          renderMem o (k2, v2) ++ (renderMemsTail o tail ++ (trailTok o ++ '}' :: rest)) := by
        rw [← List.cons_append, ← hm2]
      have htailarg : renderMemsTail o ((k2, v2) :: tail) ++ (trailTok o ++ '}' :: rest) =
          commaTok o ++ (renderMem o (k2, v2) ++
            (renderMemsTail o tail ++ (trailTok o ++ '}' :: rest))) := by
        simp [renderMemsTail, List.append_assoc]
      rw [htailarg]
      simp only [hcomma, jSkipWs_cons (show isJWs ',' = false by decide), hr4,
        if_neg hm2ne]
      rw [hback, hrec]
      rfl
end

/-! ### The Syntax Repair Engine (`src/backend/app/utils/json_repair_util.py`) -/

/-- `repair_json_with_py` (json_repair_util.py, lines 9-23): parse leniently
with `dirtyjson.loads` and re-serialize with `json.dumps`; on any parse
error, return the input unchanged.  (The source's coroutine and
missing-library guards are outside the modelled fragment.) -/
def repair_json_with_py (raw : List Char) : List Char :=
  match dirtyLoads raw with
  | some v => jsonDumps v
  | none => raw

theorem okOpts_false (o : MutOpts) : okOpts false o := fun h => absurd h (by decide)

theorem parse_render (strict : Bool) (o : MutOpts) (v : Val)
    (hwf : wfV v = true) (hok : okOpts strict o) :
    parseDoc strict (renderV o v) = some v := by
  have hskip : jSkipWs (renderV o v) = renderV o v := by
    have h := renderV_skip o v hwf []
    rwa [List.append_nil] at h
  have hcore : parseCore strict ((renderV o v).length + 1) (renderV o v) = some (v, []) := by
    have h := rt_core ((renderV o v).length + 1) v strict o [] hwf hok rfl
      (Nat.lt_succ_self _)
    rwa [List.append_nil] at h
  simp only [parseDoc, hskip, hcore]
  rfl

theorem dirtyLoads_render (o : MutOpts) (v : Val) (hwf : wfV v = true) :
    dirtyLoads (renderV o v) = some v :=
  parse_render false o v hwf (okOpts_false o)

theorem jsonLoads_dumps (v : Val) (hwf : wfV v = true) :
    jsonLoads (jsonDumps v) = some v :=
  parse_render true strictOpts v hwf fun _ => rfl

/-- C5: for every well-formed value `x` and every point of the tolerated
mutation grammar (unquoted / single-quoted keys, single-quoted strings,
trailing commas, spacing), repairing the mutated serialization of `x` yields
exactly the strict `json.dumps` serialization of `x`, and that strictly valid
text parses (with the strict parser) back to `x` — i.e.
`repair(mutate(x))` parses equal to `x`. -/
theorem claim_C5 (v : Val) (o : MutOpts) (hwf : wfV v = true) :
    repair_json_with_py (renderV o v) = jsonDumps v ∧
    jsonLoads (jsonDumps v) = some v := by
  constructor
  · simp only [repair_json_with_py, dirtyLoads_render o v hwf]
  · exact jsonLoads_dumps v hwf

/-- Witness for C5: the Scenario-2 style mutation (bare keys, single quotes,
trailing comma, no spacing) of a two-field object repairs to strict JSON that
parses back to the same structure. -/
theorem claim_C5_witness :
    wfV (Val.vdict [("title".lc, .vstr ("A".lc)), ("hook".lc, .vstr ("B".lc))]) = true ∧
    (repair_json_with_py (renderV ⟨.bare, true, true, false⟩
        (Val.vdict [("title".lc, .vstr ("A".lc)), ("hook".lc, .vstr ("B".lc))])) =
      jsonDumps (Val.vdict [("title".lc, .vstr ("A".lc)), ("hook".lc, .vstr ("B".lc))]) ∧
     jsonLoads (jsonDumps (Val.vdict [("title".lc, .vstr ("A".lc)), ("hook".lc, .vstr ("B".lc))])) =
      some (Val.vdict [("title".lc, .vstr ("A".lc)), ("hook".lc, .vstr ("B".lc))])) :=
  ⟨by rfl, claim_C5 _ ⟨.bare, true, true, false⟩ (by rfl)⟩

/-! ### The Response Extractor (`extract_json_from_llm_response`) -/

def isAsciiLetter (c : Char) : Bool := ('a' ≤ c && c ≤ 'z') || ('A' ≤ c && c ≤ 'Z')

/-- Newline character. -/
def nlCh : Char := Char.ofNat 10

/-- Model of `re.sub(r"^```[a-zA-Z]*\n?", "", s)` (json_repair_util.py,
line 31): strip one leading code fence with optional language tag and
newline. -/
def stripFenceHead (cs : List Char) : List Char :=
  if leadsWith ("```".lc) cs then
    let r := (cs.drop 3).dropWhile isAsciiLetter
    match r with
    | c :: t => if c = nlCh then t else r
    | [] => []
  else cs

/-- Python `cs.endswith(pat)`. -/
def endsTok (pat cs : List Char) : Bool := leadsWith pat.reverse cs.reverse

/-- Model of `re.sub(r"\n```$", "", s)` (json_repair_util.py, line 32):
strip one trailing newline-plus-fence. -/
def stripFenceTail (cs : List Char) : List Char :=
  if endsTok ("\n```".lc) cs then cs.take (cs.length - 4) else cs

/-- One pass of the delimiter loop (json_repair_util.py, lines 35-38):
`if delimiter in response: response = response.split(delimiter)[0].strip()`. -/
def splitOneDelim (pat cs : List Char) : List Char :=
  if hasTok pat cs then pyStrip (takeUntilTok pat cs) else cs

/-- The sequential delimiter splitting over `['---', '###', '===']`. -/
def splitDelims (cs : List Char) : List Char :=
  splitOneDelim ("===".lc) (splitOneDelim ("###".lc) (splitOneDelim ("---".lc) cs))

/-- The brace-counting scan (json_repair_util.py, lines 45-56): walk the
text keeping a running count; at a `}` that returns the count to zero, stop
and report its index (`end`/`break`); `none` when the count never returns to
zero (the loop ends with `brace_count != 0`). -/
def braceGo : List Char → Int → Nat → Option Nat
  | [], _, _ => none
  | c :: cs, cnt, idx =>
    if c = '{' then braceGo cs (cnt + 1) (idx + 1)
    else if c = '}' then
      (if cnt - 1 = 0 then some idx else braceGo cs (cnt - 1) (idx + 1))
    else braceGo cs cnt (idx + 1)

def braceClose (cs : List Char) : Option Nat := braceGo cs 0 0

/-- `extract_json_from_llm_response` (json_repair_util.py, lines 25-61):
strip fences from the stripped input, keep only the first
delimiter-separated block, then slice from the first `{` to the
depth-matching `}` (returning the whole remaining text when there is no `{`
or no matching close). -/
def extract_json_from_llm_response (response : List Char) : List Char :=
  let r1 := stripFenceTail (stripFenceHead (pyStrip response))
  let r2 := splitDelims r1
  match findCh '{' r2 with
  | none => r2
  | some start =>
    match braceClose (r2.drop start) with
    | some off => (r2.drop start).take (off + 1)
    | none => r2

/-! ### Substring lemmas for C7 -/

theorem occursIn_refl (a : List Char) : occursIn a a := ⟨[], [], by simp⟩

theorem occursIn_trans {a b c : List Char} (h1 : occursIn a b) (h2 : occursIn b c) :
    occursIn a c := by
  obtain ⟨p1, q1, rfl⟩ := h1
  obtain ⟨p2, q2, rfl⟩ := h2
  exact ⟨p2 ++ p1, q1 ++ q2, by simp [List.append_assoc]⟩

theorem dropWhile_occursIn (f : Char → Bool) (x : List Char) :
    ∃ p, x = p ++ x.dropWhile f := by
  induction x with
  | nil => exact ⟨[], rfl⟩
  | cons c t ih =>
    by_cases hc : f c
    · obtain ⟨p, hp⟩ := ih
      exact ⟨c :: p, by simp [List.dropWhile, hc, ← hp]⟩
    · exact ⟨[], by simp [List.dropWhile, hc]⟩

theorem pyStrip_occursIn (x : List Char) : occursIn (pyStrip x) x := by
  obtain ⟨p, hp⟩ := dropWhile_occursIn isPyWs x
  obtain ⟨q, hq⟩ := dropWhile_occursIn isPyWs (x.dropWhile isPyWs).reverse
  refine ⟨p, q.reverse, ?_⟩
  calc x = p ++ x.dropWhile isPyWs := hp
    _ = p ++ ((x.dropWhile isPyWs).reverse).reverse := by rw [List.reverse_reverse]
    _ = p ++ (q ++ (x.dropWhile isPyWs).reverse.dropWhile isPyWs).reverse := by rw [← hq]
    _ = p ++ pyStrip x ++ q.reverse := by
        simp [pyStrip, List.reverse_append, List.append_assoc]

theorem takeUntilTok_pre (pat : List Char) (x : List Char) :
    ∃ q, x = takeUntilTok pat x ++ q := by
  induction x with
  | nil => exact ⟨[], rfl⟩
  | cons c t ih =>
    by_cases hc : leadsWith pat (c :: t) = true
    · exact ⟨c :: t, by simp [takeUntilTok, hc]⟩
    · obtain ⟨q, hq⟩ := ih
      exact ⟨q, by simp [takeUntilTok, hc]; exact hq⟩

theorem splitOneDelim_occursIn (pat x : List Char) :
    occursIn (splitOneDelim pat x) x := by
  by_cases h : hasTok pat x = true
  · simp only [splitOneDelim, if_pos h]
    obtain ⟨q, hq⟩ := takeUntilTok_pre pat x
    exact occursIn_trans (pyStrip_occursIn _) ⟨[], q, by simp [← hq]⟩
  · simp only [splitOneDelim, if_neg h]
    exact occursIn_refl x

theorem slice_occursIn (x : List Char) (i j : Nat) :
    occursIn ((x.drop i).take j) x :=
  ⟨x.take i, (x.drop i).drop j, by
    rw [List.append_assoc, List.take_append_drop, List.take_append_drop]⟩

/-- The extraction result is always a substring of the delimiter-split
block. -/
theorem extract_occursIn_split (s : List Char) :
    occursIn (extract_json_from_llm_response s)
      (splitDelims (stripFenceTail (stripFenceHead (pyStrip s)))) := by
  simp only [extract_json_from_llm_response]
  cases hf : findCh '{' (splitDelims (stripFenceTail (stripFenceHead (pyStrip s)))) with
  | none => exact occursIn_refl _
  | some start =>
    cases hb : braceClose ((splitDelims (stripFenceTail (stripFenceHead (pyStrip s)))).drop start) with
    | none =>
      show occursIn
        (match braceClose ((splitDelims (stripFenceTail (stripFenceHead (pyStrip s)))).drop start) with
         | some off => ((splitDelims (stripFenceTail (stripFenceHead (pyStrip s)))).drop start).take (off + 1)
         | none => splitDelims (stripFenceTail (stripFenceHead (pyStrip s)))) _
      rw [hb]
      exact occursIn_refl _
    | some off =>
      show occursIn
        (match braceClose ((splitDelims (stripFenceTail (stripFenceHead (pyStrip s)))).drop start) with
         | some off => ((splitDelims (stripFenceTail (stripFenceHead (pyStrip s)))).drop start).take (off + 1)
         | none => splitDelims (stripFenceTail (stripFenceHead (pyStrip s)))) _
      rw [hb]
      exact slice_occursIn _ start (off + 1)

/-- C7: whenever the (fence-handled, stripped) response contains a
horizontal-rule delimiter line `---`, the extraction result is a substring of
the text before the first `---`: no content of any later block appears in
the result. -/
theorem claim_C7 (s : List Char)
    (h : hasTok ("---".lc) (stripFenceTail (stripFenceHead (pyStrip s))) = true) :
    occursIn (extract_json_from_llm_response s)
      (takeUntilTok ("---".lc) (stripFenceTail (stripFenceHead (pyStrip s)))) := by
  have h1 := extract_occursIn_split s
  have h2 : occursIn (splitDelims (stripFenceTail (stripFenceHead (pyStrip s))))
      (pyStrip (takeUntilTok ("---".lc) (stripFenceTail (stripFenceHead (pyStrip s))))) := by
    simp only [splitDelims, splitOneDelim, if_pos h]
    exact occursIn_trans (splitOneDelim_occursIn _ _) (splitOneDelim_occursIn _ _)
  exact occursIn_trans h1 (occursIn_trans h2 (pyStrip_occursIn _))

/-- Witness for C7 at two structured blocks separated by `---`: only the
first block is extracted. -/
theorem claim_C7_witness :
    hasTok ("---".lc) (stripFenceTail (stripFenceHead (pyStrip
      ("\x7b\"a\": 1\x7d\n---\n\x7b\"b\": 2\x7d".lc)))) = true ∧
    occursIn (extract_json_from_llm_response ("\x7b\"a\": 1\x7d\n---\n\x7b\"b\": 2\x7d".lc))
      (takeUntilTok ("---".lc) (stripFenceTail (stripFenceHead (pyStrip
        ("\x7b\"a\": 1\x7d\n---\n\x7b\"b\": 2\x7d".lc))))) ∧
    extract_json_from_llm_response ("\x7b\"a\": 1\x7d\n---\n\x7b\"b\": 2\x7d".lc) =
      "\x7b\"a\": 1\x7d".lc :=
  ⟨by rfl, claim_C7 _ (by rfl), by rfl⟩

/-! ### C6: brace-depth scanning versus the deep-dive non-greedy regex -/

/-- Brace-balanced text: a Dyck word over `{`/`}` with arbitrary other
characters interleaved (nested objects included). -/
inductive BraceBal : List Char → Prop where
  | nil : BraceBal []
  | other (c : Char) (h1 : c ≠ '{') (h2 : c ≠ '}') (t : List Char) :
      BraceBal t → BraceBal (c :: t)
  | pair (A B : List Char) : BraceBal A → BraceBal B →
      BraceBal ('{' :: A ++ '}' :: B)

theorem braceBal_other_of (cs : List Char)
    (h : ∀ c ∈ cs, ¬(c = '{' ∨ c = '}')) : BraceBal cs := by
  induction cs with
  | nil => exact .nil
  | cons c t ih =>
    have hc := h c (by simp)
    exact .other c (fun he => hc (Or.inl he)) (fun he => hc (Or.inr he)) t
      (ih fun d hd => h d (by simp [hd]))

theorem braceBal_append {x y : List Char} (hx : BraceBal x) (hy : BraceBal y) :
    BraceBal (x ++ y) := by
  induction hx with
  | nil => simpa using hy
  | other c h1 h2 t _ ih => exact .other c h1 h2 (t ++ y) ih
  | pair A B hA _ ihA ihB =>
    have h := BraceBal.pair A (B ++ y) hA ihB
    have he : ('{' :: A ++ '}' :: (B ++ y) : List Char) =
        ('{' :: A ++ '}' :: B) ++ y := by simp
    rw [he] at h
    exact h

/-- Scanning a balanced segment with a positive running count consumes it
without the count ever returning to zero. -/
theorem braceGo_bal {A : List Char} (hA : BraceBal A) :
    ∀ (B : List Char) (cnt : Int) (idx : Nat), 1 ≤ cnt →
      braceGo (A ++ B) cnt idx = braceGo B cnt (idx + A.length) := by
  induction hA with
  | nil => intro B cnt idx _; simp
  | other c h1 h2 t _ ih =>
    intro B cnt idx hcnt
    rw [List.cons_append, braceGo]
    simp only [if_neg h1, if_neg h2]
    rw [ih B cnt (idx + 1) hcnt]
    congr 1
    simp
    omega
  | pair A1 B1 hA1 hB1 ihA ihB =>
    intro B cnt idx hcnt
    have he : (('{' :: A1 ++ '}' :: B1) ++ B : List Char) =
        '{' :: (A1 ++ ('}' :: (B1 ++ B))) := by simp
    rw [he, braceGo]
    simp only [if_pos rfl]
    rw [ihA ('}' :: (B1 ++ B)) (cnt + 1) (idx + 1) (by omega), braceGo]
    have hne : ¬((cnt + 1) - 1 = 0) := by omega
    have hc : cnt + 1 - 1 = cnt := by omega
    simp only [if_neg (by decide : ¬ ('}' = '{')), if_pos rfl, if_neg hne, hc]
    rw [ihB B cnt (idx + 1 + A1.length + 1) hcnt]
    have hidx : idx + 1 + A1.length + 1 + B1.length =
        idx + ('{' :: A1 ++ '}' :: B1).length := by
      simp
      omega
    rw [hidx]
    have hz : ¬(cnt = 0) := by omega
    simp only [if_true, if_neg hz]

/-- The brace-counting scan finds exactly the matching close of the leading
`{`, however deeply objects nest inside. -/
theorem braceClose_balanced (A B : List Char) (hA : BraceBal A) :
    braceClose ('{' :: A ++ '}' :: B) = some (A.length + 1) := by
  rw [braceClose, List.cons_append, braceGo, if_pos rfl,
    braceGo_bal hA ('}' :: B) (0 + 1) (0 + 1) (by omega), braceGo]
  have hne : ((0 : Int) + 1) - 1 = 0 := by omega
  rw [if_neg (by decide : ¬ ('}' = '{')), if_pos rfl, if_pos hne]
  congr 1
  omega

theorem findCh_append_notin {ch : Char} {P : List Char} (X : List Char)
    (hP : ch ∉ P) : findCh ch (P ++ ch :: X) = some P.length := by
  induction P with
  | nil => simp [findCh]
  | cons c t ih =>
    have hc : ¬(c = ch) := fun he => hP (by simp [he])
    rw [List.cons_append, findCh, if_neg hc,
      ih fun hm => hP (by simp [hm])]
    rfl

/-- C6 (amended): for `extract_json_from_llm_response`, once fences are
stripped and the first delimiter block selected, the function slices from
the first `{` through its depth-matching `}`: a nested inner object never
truncates the recovered span. -/
theorem claim_C6 (s P A B : List Char) (hA : BraceBal A) (hP : '{' ∉ P)
    (hsplit : splitDelims (stripFenceTail (stripFenceHead (pyStrip s))) =
      P ++ '{' :: (A ++ '}' :: B)) :
    extract_json_from_llm_response s = '{' :: (A ++ ['}']) := by
  have hfind : findCh '{' (P ++ '{' :: (A ++ '}' :: B)) = some P.length :=
    findCh_append_notin _ hP
  have hdrop : (P ++ '{' :: (A ++ '}' :: B)).drop P.length = '{' :: (A ++ '}' :: B) :=
    List.drop_left _ _
  have hclose : braceClose ('{' :: (A ++ '}' :: B)) = some (A.length + 1) := by
    have h := braceClose_balanced A B hA
    rwa [List.cons_append] at h
  simp only [extract_json_from_llm_response, hsplit, hfind, hdrop, hclose]
  have hsp : '{' :: (A ++ '}' :: B) = ('{' :: (A ++ ['}'])) ++ B := by simp
  have hlen : A.length + 1 + 1 = ('{' :: (A ++ ['}'])).length := by simp
  rw [hsp, hlen, List.take_left]

/-! ### The deep-dive extraction path (`robust_parse_deep_dive_raw_response`) -/

/-- One line of `re.sub(r"^```json|```$", "", s, flags=re.MULTILINE)`
(llm.py line 557; parsers.py line 231): remove one leading ```` ```json ````
and then one trailing ```` ``` ````. -/
def deepDiveLineClean (line : List Char) : List Char :=
  let l1 := if leadsWith ("```json".lc) line then line.drop 7 else line
  if endsTok ("```".lc) l1 then l1.take (l1.length - 3) else l1

/-- The cleaning step of `robust_parse_deep_dive_raw_response`: strip, run
the multiline fence substitution linewise, and strip again. -/
def deepDiveClean (raw : List Char) : List Char :=
  pyStrip (List.intercalate [nlCh] (((pyStrip raw).splitOn nlCh).map deepDiveLineClean))

/-- The span recovered by `re.search(r"(\{[\s\S]*?\})", cleaned)` (llm.py
line 559; parsers.py line 234): from the first `{`, lazily — that is, to the
FIRST `}` after it, not to the depth-matching one. -/
def deepDiveSpan (raw : List Char) : Option (List Char) :=
  let c := deepDiveClean raw
  match findCh '{' c with
  | none => none
  | some i =>
    match findCh '}' (c.drop (i + 1)) with
    | none => none
    | some j => some ((c.drop i).take (j + 2))

/-- C6 counterexample: on the nested object text
`{"a": {"b": 1}}` the deep-dive extraction recovers only the first 14
characters `{"a": {"b": 1}` — the nested inner object truncates the span at
the first `}` — although the depth-matching close is at index 14 (as the
brace-counting scan reports), so the recovered span is not the substring
ending at the matching brace. -/
theorem claim_C6_counterexample :
    deepDiveSpan ("\x7b\"a\": \x7b\"b\": 1\x7d\x7d".lc) =
      some (("\x7b\"a\": \x7b\"b\": 1\x7d\x7d".lc).take 14) ∧
    braceClose ("\x7b\"a\": \x7b\"b\": 1\x7d\x7d".lc) = some 14 ∧
    ("\x7b\"a\": \x7b\"b\": 1\x7d\x7d".lc).take 14 ≠ "\x7b\"a\": \x7b\"b\": 1\x7d\x7d".lc := by
  refine ⟨by rfl, by rfl, by decide⟩

/-- Witness for the amended C6 at the same nested object: the
brace-counting extractor recovers the full outer span. -/
theorem claim_C6_witness :
    splitDelims (stripFenceTail (stripFenceHead (pyStrip ("\x7b\"a\": \x7b\"b\": 1\x7d\x7d".lc)))) =
      [] ++ '{' :: (("\"a\": \x7b\"b\": 1\x7d".lc) ++ '}' :: []) ∧
    extract_json_from_llm_response ("\x7b\"a\": \x7b\"b\": 1\x7d\x7d".lc) =
      '{' :: (("\"a\": \x7b\"b\": 1\x7d".lc) ++ ['}']) :=
  ⟨by rfl,
   claim_C6 _ [] _ [] (braceBal_append (braceBal_other_of ("\"a\": ".lc) (by decide))
      (BraceBal.pair ("\"b\": 1".lc) [] (braceBal_other_of _ (by decide)) BraceBal.nil))
    (by simp) (by rfl)⟩

/-! ### Python dictionary operations (CPython semantics: insertion order
preserved; updating an existing key keeps its position; new keys append) -/

def dGet (d : PyDict) (k : List Char) : Option Val :=
  match d with
  | [] => none
  | (k0, v) :: t => if k0 = k then some v else dGet t k

def dGetD (d : PyDict) (k : List Char) (dflt : Val) : Val := (dGet d k).getD dflt

def dHasKey (d : PyDict) (k : List Char) : Bool := (dGet d k).isSome

def dSet : PyDict → List Char → Val → PyDict
  | [], k, v => [(k, v)]
  | (k0, v0) :: t, k, v =>
    if k0 = k then (k0, v) :: t else (k0, v0) :: dSet t k v

/-- `dict.pop(key, None)`: remove the entry if present. -/
def dPop : PyDict → List Char → PyDict
  | [], _ => []
  | (k0, v0) :: t, k => if k0 = k then t else (k0, v0) :: dPop t k

/-- Python truthiness of the modelled values. -/
def truthy : Val → Bool
  | .vnone => false
  | .vbool b => b
  | .vint n => n ≠ 0
  | .vfloat q => q ≠ 0
  | .vstr s => !s.isEmpty
  | .vlist xs => !xs.isEmpty
  | .vdict ms => !ms.isEmpty

/-- Digits-and-fraction core of Python `float(str)` (the numeral fragment
the pipeline can feed it). -/
def pyFloatPos (s : List Char) : Option Rat :=
  match grabDigits s with
  | ([], _) => none
  | (ds, rest) =>
    match rest with
    | [] => some ((digitsVal ds : Rat))
    | '.' :: fr =>
      (match grabDigits fr with
       | (fds, []) =>
         some ((digitsVal ds : Rat) + (digitsVal fds : Rat) / ((10 : Rat) ^ fds.length))
       | _ => none)
    | _ => none

def pyFloatStr (s : List Char) : Option Rat :=
  let t := pyStrip s
  match t with
  | '-' :: r => (pyFloatPos r).map (fun q => -q)
  | _ => pyFloatPos t

/-- Model of Python `float(x)` on the values the pipeline passes it
(`none` = raised `TypeError`/`ValueError`, caught by the callers). -/
def pyFloat : Val → Option Rat
  | .vint n => some ((n : Rat))
  | .vfloat q => some q
  | .vbool b => some (if b then 1 else 0)
  | .vstr s => pyFloatStr s
  | _ => none

/-- Python 3 `round` (banker's rounding, half to even) to an integer. -/
def pyRound (q : Rat) : Int :=
  let f : Int := q.floor
  let r : Rat := q - (f : Rat)
  if r < 1 / 2 then f
  else if 1 / 2 < r then f + 1
  else if f % 2 = 0 then f else f + 1

/-- `x[:100] + "..." if len(x) > 100 else x` for strings (a non-string here
would raise `TypeError` in CPython; unreachable for parsed string fields). -/
def pyTake100Dots : Val → Val
  | .vstr s => .vstr (if 100 < s.length then s.take 100 ++ ("...".lc) else s)
  | v => v

/-- `if field not in idea or not idea[field]: idea[field] = default`. -/
def setIfFalsy (d : PyDict) (k : List Char) (v : Val) : PyDict :=
  if dHasKey d k && truthy (dGetD d k Val.vnone) then d else dSet d k v

/-- `if field in idea: idea[field] = idea[field] else: idea[field] = None`. -/
def setNoneIfAbsent (d : PyDict) (k : List Char) : PyDict :=
  if dHasKey d k then d else dSet d k Val.vnone

/-! ### The Schema Validator & Normalizer (`llm.py`) -/

/-- `sanitize_idea_fields` (llm.py, lines 154-274) as the value-level
transformation it applies to its argument dict (the in-place/reference
behaviour is modelled separately by `sanitizeCall`). -/
def sanitize_idea_fields (idea0 : PyDict) : PyDict :=
  let i1 := dPop idea0 ("source_of_inspiration".lc)
  let evd : PyDict :=
    match dGetD i1 ("evidence_reference".lc) (Val.vdict []) with
    | .vdict ms => ms
    | _ => []
  let stat :=
    match dGetD evd ("stat".lc) (Val.vstr []) with
    | .vstr s => pyStrip s
    | _ => []
  let url :=
    match dGetD evd ("url".lc) (Val.vstr []) with
    | .vstr s => pyStrip s
    | _ => []
  let badUrl := url = ("N/A".lc) || url = ("example.com".lc) ||
    url = ("http://example.com".lc) || url = ("https://example.com".lc) || url = ("#".lc)
  let i2 :=
    if stat.isEmpty || url.isEmpty || badUrl then
      dSet i1 ("evidence_reference".lc) (Val.vdict [])
    else
      dSet i1 ("evidence_reference".lc)
        (Val.vdict [(("stat".lc), .vstr stat), (("url".lc), .vstr url)])
  let i3 :=
    match dGet i2 ("idea_name".lc) with
    | some v => dSet i2 ("title".lc) v
    | none => i2
  let i4 :=
    match dGet i3 ("overall_score".lc) with
    | some v => dSet i3 ("score".lc)
        (Val.vint (match pyFloat v with | some q => pyRound q | none => 5))
    | none => i3
  let i5 :=
    match dGet i4 ("effort_score".lc) with
    | some v => dSet i4 ("mvp_effort".lc)
        (Val.vint (match pyFloat v with | some q => pyRound q | none => 5))
    | none => i4
  let i6 :=
    if dHasKey i5 ("hook".lc) && truthy (dGetD i5 ("hook".lc) Val.vnone) then i5
    else if truthy (dGetD i5 ("elevator_pitch".lc) Val.vnone) then
      dSet i5 ("hook".lc) (pyTake100Dots (dGetD i5 ("elevator_pitch".lc) Val.vnone))
    else if truthy (dGetD i5 ("problem_statement".lc) Val.vnone) then
      dSet i5 ("hook".lc) (pyTake100Dots (dGetD i5 ("problem_statement".lc) Val.vnone))
    else dSet i5 ("hook".lc) (.vstr ("A compelling business opportunity".lc))
  let evdNow : PyDict :=
    match dGetD i6 ("evidence_reference".lc) (Val.vdict []) with
    | .vdict ms => ms
    | _ => []
  let i7 :=
    setIfFalsy (setIfFalsy (setIfFalsy (setIfFalsy (setIfFalsy (setIfFalsy i6
      ("value".lc) (dGetD i6 ("elevator_pitch".lc) (.vstr ("Value proposition to be defined".lc))))
      ("evidence".lc) (dGetD evdNow ("title".lc) (.vstr ("Market research and validation needed".lc))))
      ("differentiator".lc) (.vstr ("Unique competitive advantage to be defined".lc)))
      ("type".lc) (.vstr ("side_hustle".lc)))
      ("assumptions".lc) (dGetD i6 ("core_assumptions".lc) (.vlist [])))
      ("repo_usage".lc) (.vstr ("AI-generated idea".lc))
  let i8 :=
    setNoneIfAbsent (setNoneIfAbsent (setNoneIfAbsent (setNoneIfAbsent (setNoneIfAbsent
      (setNoneIfAbsent (setNoneIfAbsent i7 ("scope_commitment".lc)) ("source_of_inspiration".lc))
      ("problem_statement".lc)) ("elevator_pitch".lc)) ("core_assumptions".lc))
      ("riskiest_assumptions".lc)) ("generation_notes".lc)
  let i9 :=
    if dHasKey i8 ("title".lc) && !dHasKey i8 ("idea_name".lc) then
      dSet i8 ("idea_name".lc) (dGetD i8 ("title".lc) Val.vnone)
    else i8
  let i10 :=
    if dHasKey i9 ("score".lc) && !dHasKey i9 ("overall_score".lc) then
      dSet i9 ("overall_score".lc)
        (match dGet i9 ("score".lc) with
         | some Val.vnone => .vfloat 5
         | some v => (match pyFloat v with | some q => .vfloat q | none => .vfloat 5)
         | none => .vfloat 5)
    else i9
  let i11 :=
    if dHasKey i10 ("mvp_effort".lc) && !dHasKey i10 ("effort_score".lc) then
      dSet i10 ("effort_score".lc)
        (match dGet i10 ("mvp_effort".lc) with
         | some Val.vnone => .vfloat 5
         | some v => (match pyFloat v with | some q => .vfloat q | none => .vfloat 5)
         | none => .vfloat 5)
    else i10
  let i12 :=
    if dHasKey i11 ("evidence_reference".lc) then
      match dGet i11 ("evidence_reference".lc) with
      | some (.vstr s) =>
        if s.isEmpty then dSet i11 ("evidence_reference".lc) (Val.vdict [])
        else dSet i11 ("evidence_reference".lc)
          (Val.vdict [(("url".lc), .vstr s), (("stat".lc), .vstr [])])
      | some Val.vnone => dSet i11 ("evidence_reference".lc) (Val.vdict [])
      | _ => i11
    else i11
  let i13 :=
    match dGet i12 ("hook".lc) with
    | some (.vstr s) =>
      dSet i12 ("hook".lc) (.vstr (if hasTok [nlCh] s then takeUntilTok [nlCh] s else s))
    | _ => i12
  match dGet i13 ("value".lc) with
  | some (.vstr s) =>
    dSet i13 ("value".lc) (.vstr (if hasTok [nlCh] s then takeUntilTok [nlCh] s else s))
  | _ => i13

/-- `ResponseParser._sanitize_idea_fields` (llm_center/parsers.py, lines
119-175): the centralized copy, which stops after the required-field
defaulting (no legacy fallbacks, no newline splitting). -/
def sanitize_idea_fields_center (idea0 : PyDict) : PyDict :=
  let i1 := dPop idea0 ("source_of_inspiration".lc)
  let evd : PyDict :=
    match dGetD i1 ("evidence_reference".lc) (Val.vdict []) with
    | .vdict ms => ms
    | _ => []
  let stat :=
    match dGetD evd ("stat".lc) (Val.vstr []) with
    | .vstr s => pyStrip s
    | _ => []
  let url :=
    match dGetD evd ("url".lc) (Val.vstr []) with
    | .vstr s => pyStrip s
    | _ => []
  let badUrl := url = ("N/A".lc) || url = ("example.com".lc) ||
    url = ("http://example.com".lc) || url = ("https://example.com".lc) || url = ("#".lc)
  let i2 :=
    if stat.isEmpty || url.isEmpty || badUrl then
      dSet i1 ("evidence_reference".lc) (Val.vdict [])
    else
      dSet i1 ("evidence_reference".lc)
        (Val.vdict [(("stat".lc), .vstr stat), (("url".lc), .vstr url)])
  let i3 :=
    match dGet i2 ("idea_name".lc) with
    | some v => dSet i2 ("title".lc) v
    | none => i2
  let i4 :=
    match dGet i3 ("overall_score".lc) with
    | some v => dSet i3 ("score".lc)
        (Val.vint (match pyFloat v with | some q => pyRound q | none => 5))
    | none => i3
  let i5 :=
    match dGet i4 ("effort_score".lc) with
    | some v => dSet i4 ("mvp_effort".lc)
        (Val.vint (match pyFloat v with | some q => pyRound q | none => 5))
    | none => i4
  let i6 :=
    if dHasKey i5 ("hook".lc) && truthy (dGetD i5 ("hook".lc) Val.vnone) then i5
    else if truthy (dGetD i5 ("elevator_pitch".lc) Val.vnone) then
      dSet i5 ("hook".lc) (pyTake100Dots (dGetD i5 ("elevator_pitch".lc) Val.vnone))
    else if truthy (dGetD i5 ("problem_statement".lc) Val.vnone) then
      dSet i5 ("hook".lc) (pyTake100Dots (dGetD i5 ("problem_statement".lc) Val.vnone))
    else dSet i5 ("hook".lc) (.vstr ("A compelling business opportunity".lc))
  let evdNow : PyDict :=
    match dGetD i6 ("evidence_reference".lc) (Val.vdict []) with
    | .vdict ms => ms
    | _ => []
  setIfFalsy (setIfFalsy (setIfFalsy (setIfFalsy (setIfFalsy (setIfFalsy i6
    ("value".lc) (dGetD i6 ("elevator_pitch".lc) (.vstr ("Value proposition to be defined".lc))))
    ("evidence".lc) (dGetD evdNow ("title".lc) (.vstr ("Market research and validation needed".lc))))
    ("differentiator".lc) (.vstr ("Unique competitive advantage to be defined".lc)))
    ("type".lc) (.vstr ("side_hustle".lc)))
    ("assumptions".lc) (dGetD i6 ("core_assumptions".lc) (.vlist [])))
    ("repo_usage".lc) (.vstr ("AI-generated idea".lc))

/-! ### Quality heuristics and `validate_idea_dict` -/

/-- `idea.get(k, '')` read as a string (a present non-string would raise on
`.lower()` in CPython; modelled as the empty string). -/
def getStrD (d : PyDict) (k : List Char) : List Char :=
  match dGet d k with
  | some (.vstr s) => s
  | _ => []

/-- `is_duplicate_idea` (llm.py, lines 1917-1925). -/
def is_duplicate_idea (new_idea : PyDict) (existing : List PyDict) : Bool :=
  existing.any fun idea =>
    pyLower (getStrD idea ("title".lc)) = pyLower (getStrD new_idea ("title".lc)) ||
    pyLower (getStrD idea ("differentiator".lc)) = pyLower (getStrD new_idea ("differentiator".lc)) ||
    pyLower (getStrD idea ("problem_statement".lc)) = pyLower (getStrD new_idea ("problem_statement".lc))

/-- `^https?://[^\s]+$` of `is_non_paywalled_url`. -/
def urlRegexMatch (url : List Char) : Bool :=
  let rest :=
    if leadsWith ("https://".lc) url then some (url.drop 8)
    else if leadsWith ("http://".lc) url then some (url.drop 7)
    else none
  match rest with
  | some r => !r.isEmpty && r.all fun c => !isPyWs c
  | none => false

/-- `is_non_paywalled_url` (llm.py, lines 1879-1885). -/
def is_non_paywalled_url : Val → Bool
  | .vstr url =>
    if url.isEmpty then false
    else if hasTok ("example.com".lc) url || hasTok ("paywall".lc) url ||
        hasTok ("forrester.com".lc) url || hasTok ("gartner.com".lc) url then false
    else urlRegexMatch url
  | _ => false

/-- `is_unique_differentiator` (llm.py, lines 1887-1891). -/
def is_unique_differentiator : Val → Bool
  | .vstr d =>
    if d.isEmpty then false
    else
      !(["ai-powered", "personalized", "machine learning", "automation", "chatbot", "platform"].any
          fun g => hasTok (g.lc) (pyLower d)) && 15 < (pyStrip d).length
  | _ => false

/-- `is_specific_problem_statement` (llm.py, lines 1893-1897). -/
def is_specific_problem_statement : Val → Bool
  | .vstr ps =>
    if ps.isEmpty then false
    else
      (hasTok ("http".lc) ps || hasTok ("%".lc) ps || hasTok ("study".lc) ps ||
        hasTok ("report".lc) ps) && 30 < (pyStrip ps).length
  | _ => false

/-- `is_real_actionable_cta` (llm.py, lines 1899-1903). -/
def is_real_actionable_cta : Val → Bool
  | .vstr cta =>
    if cta.isEmpty then false
    else
      (hasTok ("http".lc) cta || hasTok ("demo".lc) cta || hasTok ("signup".lc) cta ||
        hasTok ("contact".lc) cta) &&
      !(["learn more", "get started", "click here", "sign up", "request info", "contact us", "more info"].any
          fun g => hasTok (g.lc) (pyLower cta)) && 15 < (pyStrip cta).length
  | _ => false

/-- The log entries `validate_idea_dict` can emit (its `logging.warning`
calls); `missingField` carries the field name the message cites. -/
inductive LogMsg where
  | missingField (name : String)
  | duplicateIdea
  | badEvidence
  | genericDifferentiator
  | vagueProblem
  | weakPitch
  | genericTitle
deriving DecidableEq

/-- The strict required-field test of `validate_idea_dict`:
`not idea.get(k) or not isinstance(idea.get(k), str) or not idea[k].strip()`. -/
def reqStrOK (idea : PyDict) (k : List Char) : Bool :=
  match dGet idea k with
  | some (.vstr s) => truthy (.vstr s) && !(pyStrip s).isEmpty
  | _ => false

/-- `validate_idea_dict` (llm.py, lines 1673-1700): verdict plus the
warning log.  Title and hook are strictly required; a duplicate against
`existing_ideas` also returns `False`; everything after is warning-only. -/
def validate_idea_dict (idea : PyDict) (existing_ideas : Option (List PyDict)) :
    Bool × List LogMsg :=
  if !reqStrOK idea ("title".lc) then (false, [.missingField "title"])
  else if !reqStrOK idea ("hook".lc) then (false, [.missingField "hook"])
  else if (match existing_ideas with
           | some ex => !ex.isEmpty && is_duplicate_idea idea ex
           | none => false) then (false, [.duplicateIdea])
  else
    let evref := dGetD idea ("evidence_reference".lc) (Val.vdict [])
    let w1 : List LogMsg :=
      match evref with
      | .vdict ms =>
        if !truthy (dGetD ms ("stat".lc) Val.vnone) ||
            !is_non_paywalled_url (dGetD ms ("url".lc) (.vstr [])) then [.badEvidence] else []
      | _ => [.badEvidence]
    let w2 := if !is_unique_differentiator (dGetD idea ("differentiator".lc) (.vstr [])) then
        [LogMsg.genericDifferentiator] else []
    let w3 := if !is_specific_problem_statement (dGetD idea ("problem_statement".lc) (.vstr [])) then
        [LogMsg.vagueProblem] else []
    let w4 := if !is_real_actionable_cta (dGetD idea ("elevator_pitch".lc) (.vstr [])) then
        [LogMsg.weakPitch] else []
    let w5 := if ["ai-powered", "platform", "solution", "personalized", "chatbot", "automation"].any
        (fun g => hasTok (g.lc) (pyLower (getStrD idea ("title".lc)))) then
        [LogMsg.genericTitle] else []
    (true, w1 ++ w2 ++ w3 ++ w4 ++ w5)

/-- The whitelist of `filter_idea_fields` (llm.py, lines 1704-1709). -/
def expected_fields : List (List Char) :=
  [("title".lc), ("hook".lc), ("value".lc), ("evidence".lc), ("differentiator".lc),
   ("score".lc), ("mvp_effort".lc), ("type".lc), ("assumptions".lc), ("repo_usage".lc),
   ("elevator_pitch".lc), ("problem_statement".lc), ("evidence_reference".lc),
   ("core_assumptions".lc), ("riskiest_assumptions".lc), ("generation_notes".lc),
   ("scope_commitment".lc), ("source_of_inspiration".lc), ("repo_url".lc),
   ("repo_name".lc), ("repo_description".lc), ("mvp_steps".lc), ("prerequisites".lc)]

/-- `filter_idea_fields` (llm.py, lines 1702-1719): build a NEW dict
holding only the expected fields, in input order. -/
def filter_idea_fields (idea : PyDict) : PyDict :=
  idea.filter fun kv => expected_fields.contains kv.1

/-! ### Object-level model for the frame claim (C9) -/

/-- A heap of dict objects; a reference is an index. -/
abbrev Heap := List PyDict

def hGet (h : Heap) (r : Nat) : PyDict := h.getD r []

def hSet (h : Heap) (r : Nat) (d : PyDict) : Heap := h.set r d

/-- Call-level model of `sanitize_idea_fields` (both copies): every
assignment in the source targets the argument dict itself (`idea.pop(...)`,
`idea[...] = ...`) and the function ends with `return idea`, so the call
overwrites the caller's object and returns the same reference. -/
def sanitizeCall (h : Heap) (r : Nat) : Nat × Heap :=
  (r, hSet h r (sanitize_idea_fields (hGet h r)))

/-- Call-level model of `filter_idea_fields`: the source builds a fresh
`filtered_idea = ...` dict and copies entries into it, leaving the argument
untouched; the call allocates a new object and returns its reference. -/
def filterCall (h : Heap) (r : Nat) : Nat × Heap :=
  (h.length, h ++ [filter_idea_fields (hGet h r)])

/-! ### Claims C2, C8, C9 -/

/-- C2 counterexample: an idea carrying a title but no "hook" key at all is
ACCEPTED by the pipeline with a substitute value: `sanitize_idea_fields`
(which runs before validation in `generate_idea_pitches` and
`run_llm_pipeline`) fills in the default hook, and `validate_idea_dict`
then succeeds — rather than the input being rejected with "hook" named. -/
theorem claim_C2_counterexample :
    dGet [(("title".lc), Val.vstr ("A".lc))] ("hook".lc) = none ∧
    dGet (sanitize_idea_fields [(("title".lc), Val.vstr ("A".lc))]) ("hook".lc) =
      some (.vstr ("A compelling business opportunity".lc)) ∧
    (validate_idea_dict (sanitize_idea_fields [(("title".lc), Val.vstr ("A".lc))]) none).1 = true :=
  ⟨by rfl, by rfl, by rfl⟩

/-- C2 (amended): `validate_idea_dict`, called directly on an idea whose
title passes and which lacks "hook" entirely, fails and its only log entry
names "hook"; but in the pipeline the sanitization stage that runs first
substitutes a default hook, so a hook-less idea is accepted with a
substitute value (see the counterexample). -/
theorem claim_C2 (idea : PyDict) (ex : Option (List PyDict))
    (htitle : reqStrOK idea ("title".lc) = true)
    (hhook : dGet idea ("hook".lc) = none) :
    validate_idea_dict idea ex = (false, [.missingField "hook"]) := by
  have hh : reqStrOK idea ("hook".lc) = false := by
    simp [reqStrOK, hhook]
  rw [validate_idea_dict.eq_def, htitle, hh]
  rfl

/-- Witness for the amended C2. -/
theorem claim_C2_witness :
    reqStrOK [(("title".lc), Val.vstr ("A".lc))] ("title".lc) = true ∧
    dGet [(("title".lc), Val.vstr ("A".lc))] ("hook".lc) = none ∧
    validate_idea_dict [(("title".lc), Val.vstr ("A".lc))] none =
      (false, [.missingField "hook"]) :=
  ⟨by rfl, by rfl, claim_C2 _ none (by rfl) (by rfl)⟩

/-- C8 counterexample: an idea whose required fields (title, hook) are
present and non-empty is REJECTED — not merely warned about — when an
existing record with the same title is supplied: the duplicate-content
check returns failure, so that heuristic does block validation. -/
theorem claim_C8_counterexample :
    reqStrOK [(("title".lc), Val.vstr ("A".lc)), (("hook".lc), Val.vstr ("B".lc))] ("title".lc) = true ∧
    reqStrOK [(("title".lc), Val.vstr ("A".lc)), (("hook".lc), Val.vstr ("B".lc))] ("hook".lc) = true ∧
    validate_idea_dict [(("title".lc), Val.vstr ("A".lc)), (("hook".lc), Val.vstr ("B".lc))]
      (some [[(("title".lc), Val.vstr ("A".lc))]]) = (false, [.duplicateIdea]) :=
  ⟨by rfl, by rfl, by rfl⟩

/-- C8 (amended): when no existing-ideas list is supplied, validation of an
idea with valid title and hook always succeeds — the soft quality
heuristics (citation fields, boilerplate differentiator / problem statement
/ pitch / title) only append warnings and never reject; but the
duplicate-content check against supplied existing records rejects
(see the counterexample). -/
theorem claim_C8 (idea : PyDict)
    (htitle : reqStrOK idea ("title".lc) = true)
    (hhook : reqStrOK idea ("hook".lc) = true) :
    (validate_idea_dict idea none).1 = true := by
  rw [validate_idea_dict.eq_def, htitle, hhook]
  rfl

/-- Witness for the amended C8: an idea tripping every quality heuristic
(generic title, no evidence, generic differentiator) still validates. -/
theorem claim_C8_witness :
    reqStrOK [(("title".lc), Val.vstr ("AI-powered platform".lc)),
      (("hook".lc), Val.vstr ("B".lc)),
      (("differentiator".lc), Val.vstr ("automation".lc))] ("title".lc) = true ∧
    reqStrOK [(("title".lc), Val.vstr ("AI-powered platform".lc)),
      (("hook".lc), Val.vstr ("B".lc)),
      (("differentiator".lc), Val.vstr ("automation".lc))] ("hook".lc) = true ∧
    (validate_idea_dict [(("title".lc), Val.vstr ("AI-powered platform".lc)),
      (("hook".lc), Val.vstr ("B".lc)),
      (("differentiator".lc), Val.vstr ("automation".lc))] none).1 = true :=
  ⟨by rfl, by rfl,
   claim_C8 [(("title".lc), Val.vstr ("AI-powered platform".lc)),
      (("hook".lc), Val.vstr ("B".lc)),
      (("differentiator".lc), Val.vstr ("automation".lc))] (by rfl) (by rfl)⟩

/-- C9 counterexample: `sanitize_idea_fields` mutates its argument in
place: it returns the very reference it was given, and after the call the
caller's object no longer holds its original value (the empty dict has
grown fields) — the stage does not leave the input object unchanged. -/
theorem claim_C9_counterexample :
    (sanitizeCall [[]] 0).1 = 0 ∧
    hGet [[]] 0 = [] ∧
    (hGet (sanitizeCall [[]] 0).2 0).length = 15 ∧
    (hGet (sanitizeCall [[]] 0).2 0).length ≠ (hGet [[]] 0).length :=
  ⟨rfl, rfl, by rfl, by decide⟩

/-- C9 (amended): `filter_idea_fields` builds its output as a new object —
the caller's object is unchanged after the call and the result lives at a
fresh reference holding the filtered dict; `sanitize_idea_fields`, in
contrast, writes through and returns the caller's own reference, mutating
the candidate payload in place (see the counterexample). -/
theorem claim_C9 (h : Heap) (r : Nat) (hr : r < h.length) :
    hGet (filterCall h r).2 r = hGet h r ∧
    (filterCall h r).1 ≠ r ∧
    hGet (filterCall h r).2 (filterCall h r).1 = filter_idea_fields (hGet h r) ∧
    (sanitizeCall h r).1 = r ∧
    hGet (sanitizeCall h r).2 r = sanitize_idea_fields (hGet h r) := by
  refine ⟨?_, ?_, ?_, rfl, ?_⟩
  · exact List.getD_append _ _ _ _ hr
  · show h.length ≠ r
    omega
  · show (h ++ [filter_idea_fields (hGet h r)]).getD h.length [] = _
    rw [List.getD_append_right _ _ _ _ (le_refl _)]
    simp
  · show (h.set r (sanitize_idea_fields (hGet h r))).getD r [] = _
    simp [List.getD_eq_getElem?_getD, List.getElem?_set_self, hr]

/-- Witness for the amended C9. -/
theorem claim_C9_witness :
    (0 : Nat) < ([[(("a".lc), Val.vnone)]] : Heap).length ∧
    (hGet (filterCall [[(("a".lc), Val.vnone)]] 0).2 0 = hGet [[(("a".lc), Val.vnone)]] 0 ∧
     (filterCall [[(("a".lc), Val.vnone)]] 0).1 ≠ 0 ∧
     hGet (filterCall [[(("a".lc), Val.vnone)]] 0).2 (filterCall [[(("a".lc), Val.vnone)]] 0).1 =
       filter_idea_fields (hGet [[(("a".lc), Val.vnone)]] 0) ∧
     (sanitizeCall [[(("a".lc), Val.vnone)]] 0).1 = 0 ∧
     hGet (sanitizeCall [[(("a".lc), Val.vnone)]] 0).2 0 =
       sanitize_idea_fields (hGet [[(("a".lc), Val.vnone)]] 0)) :=
  ⟨by decide, claim_C9 [[(("a".lc), Val.vnone)]] 0 (by decide)⟩

/-! ### The Provider Gateway (`call_groq`, llm.py lines 56-108;
`GroqProvider.call_llm`, llm_center/providers.py lines 40-109) -/

/-- The outcome of one HTTP attempt, as the retry loop distinguishes them:
a successful completion, HTTP 429 with an optional `retry-after` header,
a transient network failure (`ReadTimeout`/`ConnectTimeout`/`RequestError`),
or any other error (`raise_for_status` / non-retryable exception). -/
inductive GroqOut where
  | ok (content : List Char)
  | h429 (retryAfter : Option Nat)
  | transient
  | fatal

/-- What a gateway call does, as observed by its caller. -/
inductive GroqRes where
  | content (s : List Char)
  | raisedTransient
  | raisedFatal
  | noneRet
deriving DecidableEq

/-- The retry loop body: `remaining` loop iterations left and the 1-based
attempt index.  Returns the result, the sleeps performed (seconds), and the
number of provider attempts made.  Per the source: 429 sleeps
`retry-after` (default 10) and `continue`s; a transient error sleeps 3 and
retries only when attempts remain, else re-raises; any other error
re-raises at once; falling off the loop returns `None`. -/
def callGroqLoop (oracle : Nat → GroqOut) : Nat → Nat → GroqRes × List Nat × Nat
  | 0, _ => (.noneRet, [], 0)
  | r + 1, i =>
    match oracle i with
    | .ok s => (.content s, [], 1)
    | .h429 ra =>
      let p := callGroqLoop oracle r (i + 1)
      (p.1, ra.getD 10 :: p.2.1, p.2.2 + 1)
    | .transient =>
      if 1 ≤ r then
        let p := callGroqLoop oracle r (i + 1)
        (p.1, 3 :: p.2.1, p.2.2 + 1)
      else (.raisedTransient, [], 1)
    | .fatal => (.raisedFatal, [], 1)

/-- `GroqProvider.call_llm` with `config.max_retries` attempts. -/
def call_llm (maxRetries : Nat) (oracle : Nat → GroqOut) : GroqRes × List Nat × Nat :=
  callGroqLoop oracle maxRetries 1

/-- `call_groq` with its fixed `max_retries = 3`. -/
def call_groq (oracle : Nat → GroqOut) : GroqRes × List Nat × Nat :=
  callGroqLoop oracle 3 1

def retryable : GroqOut → Bool
  | .h429 _ => true
  | .transient => true
  | _ => false

def is429 : GroqOut → Bool
  | .h429 _ => true
  | _ => false

/-- The sleep a retried attempt causes: `retry-after` (default 10) after a
429, the fixed 3-second backoff after a transient failure. -/
def retrySleep : GroqOut → Nat
  | .h429 ra => ra.getD 10
  | .transient => 3
  | _ => 0

/-- The sleeps performed by the retried attempts `1 .. i-1`. -/
def sleepsBefore (oracle : Nat → GroqOut) (i : Nat) : List Nat :=
  (List.range' 1 (i - 1)).map fun j => retrySleep (oracle j)

theorem loop_bound (oracle : Nat → GroqOut) :
    ∀ r i, (callGroqLoop oracle r i).2.2 ≤ r := by
  intro r
  induction r with
  | zero => intro i; simp [callGroqLoop]
  | succ r ih =>
    intro i
    rw [callGroqLoop]
    cases oracle i with
    | ok s => simp
    | h429 ra => simpa using Nat.succ_le_succ (ih (i + 1))
    | transient =>
      by_cases hr : 1 ≤ r
      · simp only [if_pos hr]
        simpa using Nat.succ_le_succ (ih (i + 1))
      · simp only [if_neg hr]
        omega
    | fatal => simp

theorem loop_pos (oracle : Nat → GroqOut) :
    ∀ r i, 1 ≤ r → 1 ≤ (callGroqLoop oracle r i).2.2 := by
  intro r i hr
  cases r with
  | zero => omega
  | succ r =>
    rw [callGroqLoop]
    cases oracle i with
    | ok s => simp
    | h429 ra => simp
    | transient =>
      by_cases h1 : 1 ≤ r
      · simp [if_pos h1]
      · simp [if_neg h1]
    | fatal => simp

theorem loop_iff (oracle : Nat → GroqOut) :
    ∀ r i k, 1 ≤ k →
      (k + 1 ≤ (callGroqLoop oracle r i).2.2 ↔
        (k ≤ (callGroqLoop oracle r i).2.2 ∧ k < r ∧
          retryable (oracle (i + k - 1)) = true)) := by
  intro r
  induction r with
  | zero =>
    intro i k hk
    simp [callGroqLoop]
  | succ r ih =>
    intro i k hk
    rw [callGroqLoop]
    cases hoi : oracle i with
    | ok s =>
      simp only [retryable]
      constructor
      · intro h; simp at h; omega
      · rintro ⟨h1, h2, h3⟩
        have hik : i + k - 1 = i ∨ i + k - 1 > i := by omega
        rcases hik with hik | hik
        · have : k = 1 := by omega
          subst this
          rw [show i + 1 - 1 = i from by omega, hoi] at h3
          simp [retryable] at h3
        · omega
    | fatal =>
      constructor
      · intro h; simp at h; omega
      · rintro ⟨h1, h2, h3⟩
        simp at h1
        have : k = 1 := by omega
        subst this
        rw [show i + 1 - 1 = i from by omega, hoi] at h3
        simp [retryable] at h3
    | h429 ra =>
      by_cases hk1 : k = 1
      · subst hk1
        simp only
        constructor
        · intro h
          refine ⟨by omega, ?_, ?_⟩
          · have hb := loop_bound oracle r (i + 1)
            simp at h
            omega
          · rw [show i + 1 - 1 = i from by omega, hoi]; rfl
        · rintro ⟨h1, h2, h3⟩
          have hp := loop_pos oracle r (i + 1) (by omega)
          simp
          omega
      · have hk2 : 2 ≤ k := by omega
        have := ih (i + 1) (k - 1) (by omega)
        rw [show i + 1 + (k - 1) - 1 = i + k - 1 from by omega] at this
        simp only
        constructor
        · intro h
          simp at h
          have hx := this.mp (by omega)
          exact ⟨by omega, by omega, hx.2.2⟩
        · rintro ⟨h1, h2, h3⟩
          have hx := this.mpr ⟨by omega, by omega, h3⟩
          omega
    | transient =>
      by_cases hr : 1 ≤ r
      · simp only [if_pos hr]
        by_cases hk1 : k = 1
        · subst hk1
          constructor
          · intro h
            refine ⟨by omega, by omega, ?_⟩
            rw [show i + 1 - 1 = i from by omega, hoi]; rfl
          · rintro ⟨h1, h2, h3⟩
            have hp := loop_pos oracle r (i + 1) (by omega)
            simp
            omega
        · have hk2 : 2 ≤ k := by omega
          have := ih (i + 1) (k - 1) (by omega)
          rw [show i + 1 + (k - 1) - 1 = i + k - 1 from by omega] at this
          constructor
          · intro h
            simp at h
            have hx := this.mp (by omega)
            exact ⟨by omega, by omega, hx.2.2⟩
          · rintro ⟨h1, h2, h3⟩
            have hx := this.mpr ⟨by omega, by omega, h3⟩
            omega
      · have hr0 : r = 0 := by omega
        subst hr0
        simp only [if_neg (by omega : ¬ (1 ≤ 0))]
        constructor
        · intro h; simp at h; omega
        · rintro ⟨h1, h2, h3⟩
          omega

theorem loop_peel (oracle : Nat → GroqOut) :
    ∀ (k r i : Nat), k < r →
      (∀ j, i ≤ j → j < i + k → retryable (oracle j) = true) →
      callGroqLoop oracle r i =
        ((callGroqLoop oracle (r - k) (i + k)).1,
          ((List.range' i k).map fun j => retrySleep (oracle j)) ++
            (callGroqLoop oracle (r - k) (i + k)).2.1,
          (callGroqLoop oracle (r - k) (i + k)).2.2 + k) := by
  intro k
  induction k with
  | zero =>
    intro r i _ _
    simp
  | succ k ihk =>
    intro r i hk hpre
    obtain ⟨r0, rfl⟩ : ∃ r0, r = r0 + 1 := ⟨r - 1, by omega⟩
    have hre := hpre i (le_refl i) (by omega)
    have hrec := ihk r0 (i + 1) (by omega)
      (fun j hj1 hj2 => hpre j (by omega) (by omega))
    rw [callGroqLoop]
    cases hoi : oracle i with
    | ok s => rw [hoi] at hre; simp [retryable] at hre
    | fatal => rw [hoi] at hre; simp [retryable] at hre
    | h429 ra =>
      show ((callGroqLoop oracle r0 (i + 1)).1,
          ra.getD 10 :: (callGroqLoop oracle r0 (i + 1)).2.1,
          (callGroqLoop oracle r0 (i + 1)).2.2 + 1) = _
      rw [show r0 + 1 - (k + 1) = r0 - k from by omega,
        show i + (k + 1) = i + 1 + k from by omega, hrec,
        List.range'_succ, List.map_cons]
      simp only [hoi, retrySleep, List.cons_append, Nat.add_assoc]
    | transient =>
      show (if 1 ≤ r0 then
          ((callGroqLoop oracle r0 (i + 1)).1,
            3 :: (callGroqLoop oracle r0 (i + 1)).2.1,
            (callGroqLoop oracle r0 (i + 1)).2.2 + 1)
        else (.raisedTransient, [], 1)) = _
      rw [if_pos (show 1 ≤ r0 from by omega),
        show r0 + 1 - (k + 1) = r0 - k from by omega,
        show i + (k + 1) = i + 1 + k from by omega, hrec,
        List.range'_succ, List.map_cons]
      simp only [hoi, retrySleep, List.cons_append, Nat.add_assoc]

theorem run_at (oracle : Nat → GroqOut) (i : Nat) (h1 : 1 ≤ i) (h3 : i ≤ 3)
    (hpre : ∀ j, 1 ≤ j → j < i → retryable (oracle j) = true)
    (res : GroqRes)
    (hstep : callGroqLoop oracle (4 - i) i = (res, [], 1)) :
    call_groq oracle = (res, sleepsBefore oracle i, i) := by
  show callGroqLoop oracle 3 1 = _
  rw [loop_peel oracle (i - 1) 3 1 (by omega)
    (fun j hj1 hj2 => hpre j (by omega) (by omega))]
  rw [show (3 : Nat) - (i - 1) = 4 - i from by omega,
    show 1 + (i - 1) = i from by omega, hstep]
  simp only [List.append_nil, sleepsBefore]
  rw [show 1 + (i - 1) = i from by omega]

/-- C4: the retry policy of the provider gateway `call_groq`: (a) at most 3
provider attempts are made; (b) attempt `k` is followed by a further attempt
exactly when it failed with an HTTP 429 or a transient network error
(`retryable`) and the attempt budget of 3 is not yet exhausted; (c) when the
leading attempts are all retryable failures and attempt `i ≤ 3` succeeds, the
call returns that content, having slept the retry-after duration (default 10)
after each 429 and the fixed 3-second backoff after each transient failure;
(d) any other HTTP error at attempt `i` aborts at once — the error is raised
and no further attempt is made; (e) a transient failure on the last attempt
raises the transient error to the caller. -/
theorem claim_C4 (oracle : Nat → GroqOut) :
    ((call_groq oracle).2.2 ≤ 3) ∧
    (∀ k, 1 ≤ k →
      (k + 1 ≤ (call_groq oracle).2.2 ↔
        (k ≤ (call_groq oracle).2.2 ∧ k < 3 ∧ retryable (oracle k) = true))) ∧
    (∀ i s, 1 ≤ i → i ≤ 3 →
      (∀ j, 1 ≤ j → j < i → retryable (oracle j) = true) →
      oracle i = GroqOut.ok s →
      call_groq oracle = (GroqRes.content s, sleepsBefore oracle i, i)) ∧
    (∀ i, 1 ≤ i → i ≤ 3 →
      (∀ j, 1 ≤ j → j < i → retryable (oracle j) = true) →
      oracle i = GroqOut.fatal →
      call_groq oracle = (GroqRes.raisedFatal, sleepsBefore oracle i, i)) ∧
    ((∀ j, 1 ≤ j → j < 3 → retryable (oracle j) = true) →
      oracle 3 = GroqOut.transient →
      call_groq oracle = (GroqRes.raisedTransient, sleepsBefore oracle 3, 3)) := by
  refine ⟨loop_bound oracle 3 1, ?_, ?_, ?_, ?_⟩
  · intro k hk
    have h := loop_iff oracle 3 1 k hk
    rwa [show 1 + k - 1 = k from by omega] at h
  · intro i s h1 h3 hpre hoi
    refine run_at oracle i h1 h3 hpre (.content s) ?_
    rw [show (4 : Nat) - i = (3 - i) + 1 from by omega, callGroqLoop, hoi]
  · intro i h1 h3 hpre hoi
    refine run_at oracle i h1 h3 hpre .raisedFatal ?_
    rw [show (4 : Nat) - i = (3 - i) + 1 from by omega, callGroqLoop, hoi]
  · intro hpre hoi
    refine run_at oracle 3 (by omega) (by omega) hpre .raisedTransient ?_
    show callGroqLoop oracle (0 + 1) 3 = _
    rw [callGroqLoop, hoi]
    rfl

theorem claim_C4_witness :
    call_groq (fun i => if i = 1 then GroqOut.h429 (some 7)
        else if i = 2 then GroqOut.transient else GroqOut.ok ("ok".lc)) =
      (GroqRes.content ("ok".lc), [7, 3], 3) := by
  have h := (claim_C4 (fun i => if i = 1 then GroqOut.h429 (some 7)
      else if i = 2 then GroqOut.transient else GroqOut.ok ("ok".lc))).2.2.1
    3 ("ok".lc) (by decide) (by decide)
    (by intro j h1 h2; interval_cases j <;> rfl) rfl
  rw [h]
  rfl

theorem loop_all429 (oracle : Nat → GroqOut) (h : ∀ j, is429 (oracle j) = true) :
    ∀ r i, (callGroqLoop oracle r i).1 = GroqRes.noneRet ∧
      (callGroqLoop oracle r i).2.2 = r := by
  intro r
  induction r with
  | zero => intro i; exact ⟨rfl, rfl⟩
  | succ r ih =>
    intro i
    rw [callGroqLoop]
    cases hoi : oracle i with
    | ok s => have hj := h i; rw [hoi] at hj; simp [is429] at hj
    | transient => have hj := h i; rw [hoi] at hj; simp [is429] at hj
    | fatal => have hj := h i; rw [hoi] at hj; simp [is429] at hj
    | h429 ra =>
      constructor
      · show (callGroqLoop oracle r (i + 1)).1 = GroqRes.noneRet
        exact (ih (i + 1)).1
      · show (callGroqLoop oracle r (i + 1)).2.2 + 1 = r + 1
        rw [(ih (i + 1)).2]

/-- C10: when every attempt of the gateway answers HTTP 429, the attempt loop
is exhausted and the call returns None to the caller — it neither raises nor
returns a completion.  This holds for `GroqProvider.call_llm` with any
configured `max_retries` and for `call_groq` with its fixed budget of 3. -/
theorem claim_C10 (maxR : Nat) (oracle : Nat → GroqOut)
    (h : ∀ j, is429 (oracle j) = true) :
    (call_llm maxR oracle).1 = GroqRes.noneRet ∧
    (call_llm maxR oracle).2.2 = maxR ∧
    (call_groq oracle).1 = GroqRes.noneRet ∧
    (call_groq oracle).2.2 = 3 :=
  ⟨(loop_all429 oracle h maxR 1).1, (loop_all429 oracle h maxR 1).2,
    (loop_all429 oracle h 3 1).1, (loop_all429 oracle h 3 1).2⟩

theorem claim_C10_witness :
    (call_llm 2 (fun _ => GroqOut.h429 none)).1 = GroqRes.noneRet ∧
    (call_llm 2 (fun _ => GroqOut.h429 none)).2.2 = 2 ∧
    (call_groq (fun _ => GroqOut.h429 none)).1 = GroqRes.noneRet ∧
    (call_groq (fun _ => GroqOut.h429 none)).2.2 = 3 :=
  claim_C10 2 (fun _ => GroqOut.h429 none) (fun _ => rfl)

/-- One attempt of `ai_self_heal_llm`: the provider response (`none` when
`call_groq` returned None or raised, both of which the attempt's `try`
absorbs), parsed with `json.loads` and, failing that, with
`json.loads ∘ repair_json_with_py`; when a parse exists and validates, the
attempt succeeds with `json.dumps data`. -/
def healAttempt (validator : Val → Bool) (resp : Option (List Char)) :
    Option (List Char) :=
  match resp with
  | none => none
  | some response =>
    let data :=
      match jsonLoads response with
      | some d => some d
      | none =>
        match jsonLoads (repair_json_with_py response) with
        | some d => some d
        | none => none
    match data with
    | some d => if validator d then some (jsonDumps d) else none
    | none => none

/-- The `for attempt in range(max_retries)` loop of `ai_self_heal_llm`:
`r` iterations remain and `i` is the 0-based attempt index; each iteration
makes exactly one provider call.  Returns the result together with the
number of provider calls made; falling off the loop returns the `raw`
input unchanged. -/
def healLoop (validator : Val → Bool) (oracle : Nat → Option (List Char))
    (raw : List Char) : Nat → Nat → List Char × Nat
  | 0, _ => (raw, 0)
  | r + 1, i =>
    match healAttempt validator (oracle i) with
    | some out => (out, 1)
    | none =>
      let p := healLoop validator oracle raw r (i + 1)
      (p.1, p.2 + 1)

/-- `ai_self_heal_llm raw schema_validator` with `max_retries` (source
default 2), the provider behaviour abstracted as `oracle`. -/
def ai_self_heal_llm (validator : Val → Bool) (oracle : Nat → Option (List Char))
    (raw : List Char) (max_retries : Nat) : List Char × Nat :=
  healLoop validator oracle raw max_retries 0

/-- The healing loop of `layered_json_fix_and_validate`: each iteration takes
the self-heal output `healF t`, tries `json.loads` and breaks when the result
validates, then runs a final `repair_json_with_py` pass with its own
`json.loads`-and-validate break; `data` persists across failed parses, and
after the loop the current `data` is returned. -/
def layeredHealLoop (validator : Val → Bool) (healF : Nat → List Char) :
    Nat → Nat → Option Val → Option Val
  | 0, _, data => data
  | r + 1, t, data =>
    let fixed1 := healF t
    let data1 := match jsonLoads fixed1 with | some d => some d | none => data
    let brk1 := match jsonLoads fixed1 with | some d => validator d | none => false
    if brk1 then data1
    else
      let repaired := repair_json_with_py fixed1
      let data2 := match jsonLoads repaired with | some d => some d | none => data1
      let brk2 := match jsonLoads repaired with | some d => validator d | none => false
      if brk2 then data2
      else layeredHealLoop validator healF r (t + 1) data2

/-- `layered_json_fix_and_validate` with `stream_repair_func` bound (as in
`robust_extract_json`) to the dirtyjson stream repair, `ai_self_heal_func`
abstracted as `healF`, and a schema validator: stream-repair, parse (with a
jsonrepair fallback), then — only when the parse succeeded but does not
validate — the healing loop; the final `data` is returned even when it never
validated. -/
def layered_json_fix_and_validate (validator : Val → Bool) (healF : Nat → List Char)
    (response : List Char) (max_retries : Nat) : Option Val :=
  let raw := repair_json_with_py response
  let data :=
    match jsonLoads raw with
    | some d => some d
    | none =>
      match jsonLoads (repair_json_with_py raw) with
      | some d => some d
      | none => none
  match data with
  | none => none
  | some d =>
    if validator d then some d
    else layeredHealLoop validator healF max_retries 0 (some d)

/-- `validate_idea_dict` as the boolean schema validator that
`robust_extract_json` passes to the layered repair pipeline. -/
def ideaValidator : Val → Bool
  | .vdict d => (validate_idea_dict d none).1
  | _ => false

theorem healLoop_bound (validator : Val → Bool) (oracle : Nat → Option (List Char))
    (raw : List Char) : ∀ r i, (healLoop validator oracle raw r i).2 ≤ r := by
  intro r
  induction r with
  | zero => intro i; simp [healLoop]
  | succ r ih =>
    intro i
    rw [healLoop]
    cases healAttempt validator (oracle i) with
    | some out => simp
    | none => simpa using Nat.succ_le_succ (ih (i + 1))

theorem healLoop_exhaust (validator : Val → Bool) (oracle : Nat → Option (List Char))
    (raw : List Char) :
    ∀ r i, (∀ j, i ≤ j → j < i + r → healAttempt validator (oracle j) = none) →
      healLoop validator oracle raw r i = (raw, r) := by
  intro r
  induction r with
  | zero => intro i _; rfl
  | succ r ih =>
    intro i hall
    rw [healLoop, hall i (le_refl i) (by omega)]
    show ((healLoop validator oracle raw r (i + 1)).1,
      (healLoop validator oracle raw r (i + 1)).2 + 1) = (raw, r + 1)
    rw [ih (i + 1) (fun j hj1 hj2 => hall j (by omega) (by omega))]

/-- C3 (amended): the self-heal loop of `ai_self_heal_llm` makes at most
`max_retries` provider calls in total (hence in particular at most
`maxRetries + 1`; the source default is `max_retries = 2`), and when every
attempt fails to produce valid output it returns the original raw payload
unchanged — the invalid string itself, not an explicit error result. -/
theorem claim_C3 (validator : Val → Bool) (oracle : Nat → Option (List Char))
    (raw : List Char) (max_retries : Nat) :
    (ai_self_heal_llm validator oracle raw max_retries).2 ≤ max_retries ∧
    ((∀ i, i < max_retries → healAttempt validator (oracle i) = none) →
      ai_self_heal_llm validator oracle raw max_retries = (raw, max_retries)) :=
  ⟨healLoop_bound validator oracle raw max_retries 0,
    fun hall => healLoop_exhaust validator oracle raw max_retries 0
      (fun j hj1 hj2 => hall j (by omega))⟩

theorem claim_C3_witness :
    (ai_self_heal_llm ideaValidator (fun _ => none) ("\x7b\x7d".lc) 2).2 ≤ 2 ∧
    ai_self_heal_llm ideaValidator (fun _ => none) ("\x7b\x7d".lc) 2 =
      ("\x7b\x7d".lc, 2) :=
  ⟨(claim_C3 ideaValidator (fun _ => none) ("\x7b\x7d".lc) 2).1,
    (claim_C3 ideaValidator (fun _ => none) ("\x7b\x7d".lc) 2).2
      (fun _ _ => rfl)⟩

/-- C3 counterexample: with the real idea validator, the parseable but
schema-invalid payload `"\x7b\x7d"` and a provider that fails on every
self-heal attempt, `ai_self_heal_llm` exhausts its budget and returns the raw
payload itself, and `layered_json_fix_and_validate` then returns the parsed
but schema-invalid structure as its result — not an explicit error result. -/
theorem claim_C3_counterexample :
    (ai_self_heal_llm ideaValidator (fun _ => none) ("\x7b\x7d".lc) 2).1 =
      "\x7b\x7d".lc ∧
    layered_json_fix_and_validate ideaValidator (fun _ => "\x7b\x7d".lc)
      ("\x7b\x7d".lc) 3 = some (Val.vdict []) ∧
    ideaValidator (Val.vdict []) = false :=
  ⟨rfl, rfl, rfl⟩

/-- Case-insensitive fence-open match followed by the lazy capture of
`([\s\S]+?)` up to the next closing fence: given the text after the opening
token, the group is everything before the first triple-backtick that starts
at index ≥ 1 (the group needs at least one character); `none` when no
closing fence exists. -/
def fenceAfter (cs : List Char) : Option (List Char) :=
  match findTok ("```".lc) (cs.drop 1) with
  | none => none
  | some e => some (cs.take (e + 1))

/-- `re.search` for a fenced block: the leftmost position where `tok` matches
case-insensitively and a closing fence follows; returns the captured group
from the original (non-lowered) text. -/
def searchFence (tok : List Char) : List Char → Option (List Char)
  | [] => none
  | c :: cs =>
    if leadsWith tok (pyLower (c :: cs)) then
      match fenceAfter ((c :: cs).drop tok.length) with
      | some g => some g
      | none => searchFence tok cs
    else searchFence tok cs

/-- `re.sub` removing every (case-insensitive) occurrence of a triple
backtick optionally followed by `json`. -/
def deFence : List Char → List Char
  | [] => []
  | c :: cs =>
    if leadsWith ("```json".lc) (pyLower (c :: cs)) then
      match cs with
      | _ :: _ :: _ :: _ :: _ :: _ :: rest => deFence rest
      | _ => []
    else if leadsWith ("```".lc) (c :: cs) then
      match cs with
      | _ :: _ :: rest => deFence rest
      | _ => []
    else c :: deFence cs

/-- `re.search` for `([\[{].*)` with DOTALL: the suffix from the first
opening brace or bracket, `none` when there is neither. -/
def fromFirstBracket : List Char → Option (List Char)
  | [] => none
  | c :: r => if c = '{' || c = '[' then some (c :: r) else fromFirstBracket r

/-- `robust_extract_json`: empty input short-circuits to None; else extract a
fenced block (the `json`-tagged form first, then a plain fence), strip any
remaining fence markers, cut to the first `\x7b` or `[`, and hand the result
to the layered repair/validation pipeline with `validate_idea_dict` as the
schema validator and `max_retries = 3`. -/
def robust_extract_json (healF : Nat → List Char) (response : List Char) :
    Option Val :=
  if response = [] then none
  else
    let r1 :=
      match searchFence ("```json".lc) response with
      | some g => pyStrip g
      | none =>
        match searchFence ("```".lc) response with
        | some g => pyStrip g
        | none => response
    let r2 := pyStrip (deFence r1)
    let r3 :=
      match fromFirstBracket r2 with
      | some m => m
      | none => r2
    layered_json_fix_and_validate ideaValidator healF r3 3

/-- The stage label the orchestrator attaches to the processing-log row it
writes before re-raising. -/
inductive PipeErr where
  | llmCall
  | cleaning
  | normalization
  | validation
deriving DecidableEq

/-- `run_llm_pipeline`: call the LLM, clean/repair with
`robust_extract_json` (a None result raises ValueError), normalize with
`sanitize_idea_fields` (which raises on a non-dict input), validate with
Guardrails (`validate_llm_output`, abstracted as `vOracle`).  Every stage's
`except` block logs a processing-log row and then RE-RAISES, so the failure
escapes to the caller; `.error` marks the escaped exception with its stage. -/
def run_llm_pipeline (healF : Nat → List Char)
    (vOracle : PyDict → Except Unit Val)
    (llmResult : Except Unit (List Char)) : Except PipeErr Val :=
  match llmResult with
  | .error _ => .error .llmCall
  | .ok raw =>
    match robust_extract_json healF raw with
    | none => .error .cleaning
    | some cleaned =>
      match cleaned with
      | .vdict d =>
        match vOracle (sanitize_idea_fields d) with
        | .error _ => .error .validation
        | .ok v => .ok v
      | _ => .error .normalization

/-- C1 (amended): `run_llm_pipeline` logs and then RE-RAISES at every stage,
so stage failures — including pure data-quality failures such as extraction
returning None — escape to the caller as exceptions tagged with their stage
(`llm_call`, `cleaning`, `validation`); a typed result reaches the caller
only when every stage succeeds. -/
theorem claim_C1 (healF : Nat → List Char) (vOracle : PyDict → Except Unit Val)
    (raw : List Char) :
    (∀ e, run_llm_pipeline healF vOracle (.error e) = .error .llmCall) ∧
    (robust_extract_json healF raw = none →
      run_llm_pipeline healF vOracle (.ok raw) = .error .cleaning) ∧
    (∀ d, robust_extract_json healF raw = some (Val.vdict d) →
      (∀ e, vOracle (sanitize_idea_fields d) = .error e →
        run_llm_pipeline healF vOracle (.ok raw) = .error .validation) ∧
      (∀ v, vOracle (sanitize_idea_fields d) = .ok v →
        run_llm_pipeline healF vOracle (.ok raw) = .ok v)) := by
  refine ⟨fun e => rfl, ?_, ?_⟩
  · intro hnone
    simp [run_llm_pipeline, hnone]
  · intro d hd
    constructor
    · intro e he
      simp [run_llm_pipeline, hd, he]
    · intro v hv
      simp [run_llm_pipeline, hd, hv]

theorem claim_C1_witness :
    robust_extract_json (fun _ => []) ("no ideas today.".lc) = none ∧
    run_llm_pipeline (fun _ => []) (fun _ => Except.ok Val.vnone)
      (Except.ok ("no ideas today.".lc)) = Except.error PipeErr.cleaning :=
  ⟨rfl,
    (claim_C1 (fun _ => []) (fun _ => Except.ok Val.vnone)
      ("no ideas today.".lc)).2.1 rfl⟩

/-- C1 counterexample: an input whose only failure is data quality — prose
with no JSON object, so extraction and repair fail — escapes
`run_llm_pipeline` as a raised exception (the re-raised cleaning-stage
ValueError), not as a typed error result handed to the caller. -/
theorem claim_C1_counterexample :
    run_llm_pipeline (fun _ => []) (fun d => Except.ok (Val.vdict d))
      (Except.ok ("Sorry, I cannot produce JSON.".lc)) =
      Except.error PipeErr.cleaning := rfl
